import Mathlib

/-!
Verification development for the `Compilers-project` repository: a shallow
embedding in Lean 4 of the compiler pipeline (tokenizer, parser, type
checker, IR generator, assembly emitter) together with theorems settling the
specification claims about it.

Each definition is translated from the corresponding Python source file
(`src/compiler/...`); doc comments name the source function embedded.
Python exceptions are modelled with `Except`/`Option`; Python's unbounded
loops are modelled with an explicit fuel argument whose exhausted branch is
unreachable for the fuel supplied by the wrappers (each loop iteration
either consumes input or fails).
-/

namespace Compilers

/-- Source location, from `tokenizer.Location` (a frozen dataclass). -/
structure Location where
  file : String
  line : Nat
  column : Nat
deriving DecidableEq, Repr

/-- `str`/`repr` of a `Location` dataclass as Python prints it inside
f-string diagnostics: `Location(file='no file', line=1, column=1)`. -/
def locRepr (l : Location) : String :=
  "Location(file='" ++ l.file ++ "', line=" ++ toString l.line ++
    ", column=" ++ toString l.column ++ ")"

/-- A lexer token, from `tokenizer.Token`.  The Python `TokenType` is a
`typing.Literal` alias of `str`, i.e. token kinds are plain strings at
runtime, so the `type` field is a `String` here as well. -/
structure Token where
  type : String
  text : String
  location : Location
deriving DecidableEq, Repr

/-! ### Character classes used by the tokenizer's regular expressions -/

/-- Python `\s` for the ASCII range (space, tab, newline, carriage return,
form feed, vertical tab); all inputs in this development are ASCII. -/
def isSpaceChar (c : Char) : Bool :=
  c == ' ' || c == '\t' || c == '\n' || c == '\x0d' || c == '\x0c' || c == '\x0b'

/-- Python `\w` (ASCII): letters, digits and underscore; used for the `\b`
word-boundary assertions of the keyword patterns. -/
def isWordChar (c : Char) : Bool :=
  c.isAlpha || c.isDigit || c == '_'

def isDigitChar (c : Char) : Bool := c.isDigit

def isIdentStart (c : Char) : Bool := c.isAlpha || c == '_'

/-! ### Anchored matchers for the tokenizer's regex patterns

Each matcher mirrors `re.match(pattern, source_code, index)`: it examines
`src` at index `i` and returns the length of the match, or `none`. -/

/-- Length of the maximal prefix of `l` whose characters satisfy `p`. -/
def takeLen (p : Char → Bool) : List Char → Nat
  | [] => 0
  | c :: rest => if p c then takeLen p rest + 1 else 0

/-- Whether `pat` is a prefix of `l` (anchored literal match). -/
def litMatch (pat : List Char) (l : List Char) : Bool :=
  match pat, l with
  | [], _ => true
  | _ :: _, [] => false
  | p :: ps, c :: cs => p == c && litMatch ps cs

/-- `\b` holds before index `i` of `src` when the previous character (if
any) is a non-word character; the keyword patterns only apply this where a
word character follows, which the literal keyword text guarantees. -/
def boundaryBefore (src : List Char) (i : Nat) : Bool :=
  i == 0 || !(isWordChar (src.getD (i - 1) ' '))

/-- `\b` holds after a match ending at index `j` when the next character
(if any) is a non-word character. -/
def boundaryAfter (src : List Char) (j : Nat) : Bool :=
  j ≥ src.length || !(isWordChar (src.getD j ' '))

/-- Anchored match of `\b(w₁|w₂|…)\b` at index `i`: the alternatives are
tried in order, as Python's regex engine does. -/
def kwMatch (words : List String) (src : List Char) (i : Nat) : Option String :=
  match words with
  | [] => none
  | w :: rest =>
    if boundaryBefore src i && litMatch w.data (src.drop i) &&
        boundaryAfter src (i + w.length) then
      some w
    else
      kwMatch rest src i

/-- First literal alternative of `alts` matching at index `i` (no word
boundaries), for the two-character operator alternatives. -/
def litAltMatch (alts : List String) (src : List Char) (i : Nat) : Option String :=
  match alts with
  | [] => none
  | a :: rest =>
    if litMatch a.data (src.drop i) then some a else litAltMatch rest src i

/-! ### Token patterns, from `tokenizer.tokenize`'s `token_patterns` dict -/

/-- Match of the pattern for kind `while_loop`: `\b(while|do)\b`. -/
def matchWhileLoop (src : List Char) (i : Nat) : Option String :=
  kwMatch ["while", "do"] src i

/-- Match of the pattern for kind `conditional`: `\b(if|then|else)\b`. -/
def matchConditional (src : List Char) (i : Nat) : Option String :=
  kwMatch ["if", "then", "else"] src i

/-- Match of the pattern for kind `declaration`: `\b(var)\b`. -/
def matchDeclaration (src : List Char) (i : Nat) : Option String :=
  kwMatch ["var"] src i

/-- Match of the pattern for kind `operator`:
`\b(and|or|not)\b|(==|!=|<=|>=)|[-+*/%=<>]`; the three alternatives are
tried in order. -/
def matchOperator (src : List Char) (i : Nat) : Option String :=
  match kwMatch ["and", "or", "not"] src i with
  | some w => some w
  | none =>
    match litAltMatch ["==", "!=", "<=", ">="] src i with
    | some w => some w
    | none =>
      let c := src.getD i ' '
      if i < src.length &&
          (c == '-' || c == '+' || c == '*' || c == '/' || c == '%' ||
           c == '=' || c == '<' || c == '>') then
        some c.toString
      else
        none

/-- Match of the pattern for kind `bool_literal`: `\b(true|false)\b`. -/
def matchBoolLiteral (src : List Char) (i : Nat) : Option String :=
  kwMatch ["true", "false"] src i

/-- Match of the pattern for kind `int_literal`: `\d+`. -/
def matchIntLiteral (src : List Char) (i : Nat) : Option String :=
  let n := takeLen isDigitChar (src.drop i)
  if n > 0 then some (String.mk ((src.drop i).take n)) else none

/-- Match of the pattern for kind `identifier`: `[a-zA-Z_][a-zA-Z0-9_]*`. -/
def matchIdentifier (src : List Char) (i : Nat) : Option String :=
  match src.drop i with
  | [] => none
  | c :: rest =>
    if isIdentStart c then
      some (String.mk (c :: rest.take (takeLen isWordChar rest)))
    else
      none

/-- Match of the pattern for kind `punctuation`: `[(){},;:]`. -/
def matchPunctuation (src : List Char) (i : Nat) : Option String :=
  let c := src.getD i ' '
  if i < src.length &&
      (c == '(' || c == ')' || c == '\x7b' || c == '\x7d' || c == ',' ||
       c == ';' || c == ':') then
    some c.toString
  else
    none

/-- The `token_patterns` dict of `tokenizer.tokenize`, in insertion order
(the order the extraction pass attempts them). -/
def tokenPatterns : List (String × (List Char → Nat → Option String)) :=
  [("while_loop", matchWhileLoop),
   ("conditional", matchConditional),
   ("declaration", matchDeclaration),
   ("operator", matchOperator),
   ("bool_literal", matchBoolLiteral),
   ("int_literal", matchIntLiteral),
   ("identifier", matchIdentifier),
   ("punctuation", matchPunctuation)]

/-! ### Skip patterns and position bookkeeping -/

/-- Line/column state threaded through the tokenizer loop. -/
structure LexPos where
  i : Nat
  line : Nat
  column : Nat
deriving Repr

/-- `tokenizer.adjust_column_position_after_skip`: update line/column after
skipping the character run `skipped`. -/
def adjustAfterSkip (line column : Nat) (skipped : List Char) : Nat × Nat :=
  let linebreaks := skipped.count '\n'
  let line' := line + linebreaks
  if linebreaks ≠ 0 && skipped.getLastD ' ' == '\n' then
    (line', 0)
  else if linebreaks ≠ 0 then
    -- `len(skipped) - skipped.rfind('\n') - 1`: characters after the last newline
    (line', takeLen (fun c => c ≠ '\n') skipped.reverse)
  else
    (line', column + skipped.length)

/-- Anchored match of the skip pattern `\s+`. -/
def matchWhitespace (src : List Char) (i : Nat) : Option Nat :=
  let n := takeLen isSpaceChar (src.drop i)
  if n > 0 then some n else none

/-- Anchored match of the skip pattern `(//|#).*` (`.` excludes newline). -/
def matchComment (src : List Char) (i : Nat) : Option Nat :=
  let rest := src.drop i
  if litMatch ['/', '/'] rest then
    some (2 + takeLen (fun c => c ≠ '\n') (rest.drop 2))
  else if litMatch ['#'] rest then
    some (1 + takeLen (fun c => c ≠ '\n') (rest.drop 1))
  else
    none

/-- Index (counted from the start of `l`) just past the first occurrence of
`*/` in `l`, if any; implements the non-greedy `[\s\S]*?\*/`. -/
def findCloseLen : List Char → Option Nat
  | [] => none
  | c :: rest =>
    if litMatch ['*', '/'] (c :: rest) then
      some 2
    else
      (findCloseLen rest).map (· + 1)

/-- Anchored match of the skip pattern `/\*[\s\S]*?\*/`; an unterminated
block comment does not match at all, exactly as in Python. -/
def matchMultilineComment (src : List Char) (i : Nat) : Option Nat :=
  let rest := src.drop i
  if litMatch ['/', '*'] rest then
    (findCloseLen (rest.drop 2)).map (· + 2)
  else
    none

/-- One pass over the three skip patterns (whitespace, line comment, block
comment, in dict order), from `tokenizer.skip_pattern`: whitespace and
block comments adjust line/column, line comments advance the index only. -/
def skipAll (src : List Char) (p : LexPos) : LexPos :=
  let p1 :=
    match matchWhitespace src p.i with
    | some n =>
      let (line', col') := adjustAfterSkip p.line p.column ((src.drop p.i).take n)
      { i := p.i + n, line := line', column := col' }
    | none => p
  let p2 :=
    match matchComment src p1.i with
    | some n => { p1 with i := p1.i + n }
    | none => p1
  match matchMultilineComment src p2.i with
  | some n =>
    let (line', col') := adjustAfterSkip p2.line p2.column ((src.drop p2.i).take n)
    { i := p2.i + n, line := line', column := col' }
  | none => p2

/-- One `tokenizer.extract_token` attempt for a single pattern: on a match,
emit a token located at `column + 1` and advance index and column. -/
def extractOne (src : List Char) (file : String) (kind : String)
    (pat : List Char → Nat → Option String) (p : LexPos) (acc : List Token) :
    LexPos × List Token :=
  match pat src p.i with
  | some text =>
    ({ p with i := p.i + text.length, column := p.column + text.length },
     acc ++ [{ type := kind, text := text,
               location := { file := file, line := p.line, column := p.column + 1 } }])
  | none => (p, acc)

/-- The extraction pass of the tokenizer loop: each of the eight token
patterns is attempted once, in dict order, at the current index. -/
def extractAll (src : List Char) (file : String) (p : LexPos) (acc : List Token) :
    LexPos × List Token :=
  tokenPatterns.foldl (fun (st : LexPos × List Token) kp =>
    extractOne src file kp.1 kp.2 st.1 st.2) (p, acc)

/-- The main loop of `tokenizer.tokenize`: skip, extract, and fail with
`SyntaxError` when the position did not advance.  The fuel supplied by
`tokenize` (`src.length + 1`) always suffices because every iteration that
recurses strictly advances the index; the fuel-exhausted branch is
unreachable and returns the tokens collected so far. -/
def tokenizeLoop (src : List Char) (file : String) :
    Nat → LexPos → List Token → Except String (List Token)
  | 0, _, acc => .ok acc
  | fuel + 1, p, acc =>
    if h : p.i < src.length then
      let p1 := skipAll src p
      let (p2, acc2) := extractAll src file p1 acc
      if p2.i == p.i then
        .error ("Unrecognized character: " ++ (src.get ⟨p.i, h⟩).toString)
      else
        tokenizeLoop src file fuel p2 acc2
    else
      .ok acc

/-- `tokenizer.tokenize(source_code, file_name)`: `line` starts at 1 and
`column` at 0; a failed scan raises `SyntaxError` whose message is
`"Unrecognized character: <ch>"`. -/
def tokenize (sourceCode fileName : String) : Except String (List Token) :=
  tokenizeLoop sourceCode.data fileName (sourceCode.length + 1)
    { i := 0, line := 1, column := 0 } []

/-! ### Types, from `c_types.py`

`Type` is a dataclass holding a name; `Int`, `Bool`, `Unit` are interned
singletons, and `FunType` extends `Type` with parameter and return types.
Python compares these values with `==` (structural) and, in a few places,
with `is` (object identity); on the interned scalar singletons the two
coincide, and every comparison used by the theorems below involves only
scalars, where the structural embedding is exact. -/

inductive CType where
  | base (name : String)
  | fn (name : String) (params : List CType) (ret : CType)

mutual

/-- Structural equality on types (Python dataclass `==`). -/
def ctypeBeq : CType → CType → Bool
  | .base a, .base b => a == b
  | .fn n1 p1 r1, .fn n2 p2 r2 => n1 == n2 && ctypeListBeq p1 p2 && ctypeBeq r1 r2
  | _, _ => false

def ctypeListBeq : List CType → List CType → Bool
  | [], [] => true
  | a :: as_, b :: bs => ctypeBeq a b && ctypeListBeq as_ bs
  | _, _ => false

end

mutual

def ctypeBeq_refl : ∀ a, ctypeBeq a a = true
  | .base a => by simp [ctypeBeq]
  | .fn n p r => by simp [ctypeBeq, ctypeBeq_refl r, ctypeListBeq_refl p]

def ctypeListBeq_refl : ∀ l, ctypeListBeq l l = true
  | [] => rfl
  | a :: as_ => by simp [ctypeListBeq, ctypeBeq_refl a, ctypeListBeq_refl as_]

end

mutual

def ctypeBeq_eq : ∀ a b, ctypeBeq a b = true → a = b
  | .base a, .base b => by
    simp only [ctypeBeq, beq_iff_eq]
    rintro rfl
    rfl
  | .base _, .fn _ _ _ => by simp [ctypeBeq]
  | .fn _ _ _, .base _ => by simp [ctypeBeq]
  | .fn n1 p1 r1, .fn n2 p2 r2 => by
    simp only [ctypeBeq, Bool.and_eq_true, beq_iff_eq]
    rintro ⟨⟨rfl, hp⟩, hr⟩
    rw [ctypeBeq_eq r1 r2 hr, ctypeListBeq_eq p1 p2 hp]

def ctypeListBeq_eq : ∀ l1 l2, ctypeListBeq l1 l2 = true → l1 = l2
  | [], [] => fun _ => rfl
  | [], _ :: _ => by simp [ctypeListBeq]
  | _ :: _, [] => by simp [ctypeListBeq]
  | a :: as_, b :: bs => by
    simp only [ctypeListBeq, Bool.and_eq_true]
    rintro ⟨ha, ht⟩
    rw [ctypeBeq_eq a b ha, ctypeListBeq_eq as_ bs ht]

end

instance : DecidableEq CType := fun a b =>
  if h : ctypeBeq a b = true then .isTrue (ctypeBeq_eq a b h)
  else .isFalse (fun he => h (he ▸ ctypeBeq_refl a))

/-- `c_types.Int = Type("Integer")`. -/
def IntT : CType := .base "Integer"
/-- `c_types.Bool = Type("Boolean")`. -/
def BoolT : CType := .base "Boolean"
/-- `c_types.Unit = Type("Unit")`. -/
def UnitT : CType := .base "Unit"

/-- Whether a type is one of the scalar (non-`FunType`) values, on which
Python's `is` agrees with structural equality thanks to interning. -/
def CType.isBase : CType → Bool
  | .base _ => true
  | .fn _ _ _ => false

/-! ### AST, from `bast.py`

Every expression node carries a `location` and a `type` field (the latter
defaults to `Unit` and is overwritten by the type checker; the embedding
passes it explicitly).  `Declaration.identifier` and
`FuncExpression.identifier` are always `Identifier` nodes in the source, so
they are flattened here to the identifier's name and location. -/

/-- Value stored in a `bast.Literal` node: `int | bool | None`. -/
inductive LitValue where
  | intV (n : Int)
  | boolV (b : Bool)
  | noneV
deriving DecidableEq, Repr

/-- `bast.TypeExpression`; `ty` mirrors the node's mutable `type` slot
(default `Unit`, written by the type checker's `convert` and read by the
IR generator for function parameters). -/
structure TypeExpr where
  name : String
  loc : Location
  ty : CType
deriving DecidableEq

/-- The expression AST of `bast.py`.  `empty` is the placeholder base-class
instance `ast.Expression()` that `parse` returns on empty input. -/
inductive Expr where
  | literal (value : LitValue) (loc : Location) (ty : CType)
  | ident (name : String) (loc : Location) (ty : CType)
  | typeExpr (name : String) (loc : Location) (ty : CType)
  | declaration (identName : String) (identLoc : Location) (expression : Expr)
      (typeExpression : Option TypeExpr) (loc : Location) (ty : CType)
  | binaryOp (left : Expr) (op : String) (right : Expr) (loc : Location) (ty : CType)
  | unaryOp (op : String) (expression : Expr) (loc : Location) (ty : CType)
  | ifExpr (ifCondition : Expr) (thenClause : Expr) (elseClause : Option Expr)
      (loc : Location) (ty : CType)
  | whileExpr (condition : Expr) (body : Expr) (loc : Location) (ty : CType)
  | breakExpr (loc : Location) (ty : CType)
  | continueExpr (loc : Location) (ty : CType)
  | funcExpr (funcName : String) (funcIdentLoc : Location) (args : List Expr)
      (loc : Location) (ty : CType)
  | blockExpr (body : List Expr) (loc : Location) (ty : CType)
  | returnExpr (result : Option Expr) (loc : Location) (ty : CType)
  | empty


/-- Default location of nodes built without one (`bast.Expression`'s
dataclass default). -/
def noLoc : Location := { file := "no file", line := 1, column := 1 }

/-- The node's `location` field (`empty` carries the dataclass default). -/
def Expr.locOf : Expr → Location
  | .literal _ l _ => l
  | .ident _ l _ => l
  | .typeExpr _ l _ => l
  | .declaration _ _ _ _ l _ => l
  | .binaryOp _ _ _ l _ => l
  | .unaryOp _ _ l _ => l
  | .ifExpr _ _ _ l _ => l
  | .whileExpr _ _ l _ => l
  | .breakExpr l _ => l
  | .continueExpr l _ => l
  | .funcExpr _ _ _ l _ => l
  | .blockExpr _ l _ => l
  | .returnExpr _ l _ => l
  | .empty => noLoc

/-- The node's `type` field (`empty` carries the dataclass default `Unit`). -/
def Expr.tyOf : Expr → CType
  | .literal _ _ t => t
  | .ident _ _ t => t
  | .typeExpr _ _ t => t
  | .declaration _ _ _ _ _ t => t
  | .binaryOp _ _ _ _ t => t
  | .unaryOp _ _ _ t => t
  | .ifExpr _ _ _ _ t => t
  | .whileExpr _ _ _ t => t
  | .breakExpr _ t => t
  | .continueExpr _ t => t
  | .funcExpr _ _ _ _ t => t
  | .blockExpr _ _ t => t
  | .returnExpr _ _ t => t
  | .empty => UnitT

/-- `isinstance(e, (ast.Identifier, ast.Literal))`, the test used by the
parser's missing-semicolon checks. -/
def Expr.isLitOrIdent : Expr → Bool
  | .literal _ _ _ => true
  | .ident _ _ _ => true
  | _ => false

/-- `bast.FuncParam`. -/
structure FuncParam where
  name : String
  typeExpression : TypeExpr
  loc : Location
deriving DecidableEq

/-- `bast.FuncDef`. -/
structure FuncDef where
  name : String
  params : List FuncParam
  body : Expr
  typeExpression : Option TypeExpr
  ty : CType
  loc : Location

/-- `bast.Module`: a list of function definitions and expressions. -/
structure ModuleAst where
  body : List (Sum FuncDef Expr)
  loc : Location

/-! ### Parser, from `parser.py`

The parser's nested functions share a token list and a position; each
embedded function takes the position and returns the value together with
the new position.  Python's unbounded loops and recursion are modelled with
a fuel argument (first, matched structurally); `parse` supplies ample fuel,
so the fuel-exhausted branches are unreachable.  Error payloads are the
exception messages (the source raises `SyntaxError` everywhere except the
two literal parsers, which raise bare `Exception`). -/

/-- The default token used where Python would index an empty list. -/
def endToken : Token := { type := "end", text := "", location := noLoc }

/-- `parser.parse`'s nested `peek`: the token at `pos`, or a synthetic
`end` token carrying the last token's location. -/
def peekTok (tokens : List Token) (pos : Nat) : Token :=
  if h : pos < tokens.length then tokens.get ⟨pos, h⟩
  else { type := "end", text := "", location := (tokens.getLastD endToken).location }

/-- `tokens[pos - 1]` as Python evaluates it: for `pos = 0` the index `-1`
wraps around to the last token. -/
def prevTok (tokens : List Token) (pos : Nat) : Token :=
  if pos == 0 then tokens.getLastD endToken else tokens.getD (pos - 1) endToken

/-- `parser.parse`'s nested `consume`: `expected` is nothing, a single
text, or a list of texts, mirroring the `str | list[str] | None` union. -/
def consume (tokens : List Token) (pos : Nat)
    (expected : Option (Sum String (List String))) : Except String (Token × Nat) :=
  let token := peekTok tokens pos
  match expected with
  | some (.inl s) =>
    if token.text != s then
      .error (locRepr token.location ++ ": expected: \"" ++ s ++ "\"")
    else
      .ok (token, pos + 1)
  | some (.inr l) =>
    if !(l.contains token.text) then
      .error (locRepr token.location ++ ": expected one of: '" ++
        String.intercalate ", " l ++ "'")
    else
      .ok (token, pos + 1)
  | none => .ok (token, pos + 1)

/-- The default `binary_operators` precedence table of
`parser.parse_binary_term`. -/
def defaultBinaryOperators : List (List String) :=
  [["or"], ["and"], ["==", "!="], ["<", ">", "<=", ">="], ["+", "-"], ["*", "/", "%"]]

/-- `parser.var_is_allowed`. -/
def var_is_allowed (tokens : List Token) (pos : Nat) : Bool :=
  if pos == 0 then true
  else
    let t := (prevTok tokens pos).text
    t == "\x7b" || t == "\x7d" || t == ";"

/-- `parser.parse_type_expression`. -/
def parse_type_expression (tokens : List Token) (pos : Nat) :
    Except String (TypeExpr × Nat) :=
  let pk := peekTok tokens pos
  if pk.type != "identifier" then
    .error (locRepr pk.location ++ ": expected a type hint")
  else
    .ok ({ name := pk.text, loc := pk.location, ty := UnitT }, pos + 1)

/-- Python's `int(...)` on the digit-only text of an `int_literal` token. -/
def digitsToInt (t : String) : Int :=
  (t.data.foldl (fun n c => n * 10 + (c.toNat - 48)) 0 : Nat)

/-- `parser.parse_int_literal` (raises a bare `Exception` in the source). -/
def parse_int_literal (tokens : List Token) (pos : Nat) : Except String (Expr × Nat) :=
  let pk := peekTok tokens pos
  if pk.type != "int_literal" then
    .error (locRepr pk.location ++ ": expected an integer literal")
  else
    .ok (.literal (.intV (digitsToInt pk.text)) pk.location UnitT, pos + 1)

/-- `parser.parse_bool_literal` (raises a bare `Exception` in the source). -/
def parse_bool_literal (tokens : List Token) (pos : Nat) : Except String (Expr × Nat) :=
  let pk := peekTok tokens pos
  if pk.type != "bool_literal" then
    .error (locRepr pk.location ++ ": expected a boolean literal")
  else
    .ok (.literal (.boolV (pk.text == "true")) pk.location UnitT, pos + 1)

/-- `parser.parse_identifier`. -/
def parse_identifier (tokens : List Token) (pos : Nat) : Except String (Expr × Nat) :=
  let pk := peekTok tokens pos
  if pk.type != "identifier" then
    .error (locRepr pk.location ++ ": expected an identifier")
  else
    .ok (.ident pk.text pk.location UnitT, pos + 1)

/-- `parser.parse_break_or_continue_expression`. -/
def parse_break_or_continue (tokens : List Token) (pos : Nat) :
    Except String (Expr × Nat) :=
  let pk := peekTok tokens pos
  if pk.text == "continue" then
    match consume tokens pos (some (.inl "continue")) with
    | .error e => .error e
    | .ok (_, pos1) => .ok (.continueExpr pk.location UnitT, pos1)
  else
    match consume tokens pos (some (.inl "break")) with
    | .error e => .error e
    | .ok (_, pos1) => .ok (.breakExpr pk.location UnitT, pos1)

mutual

/-- `parser.parse_top_level_block`: parse one expression, then enter the
statement loop. -/
def parse_top_level_block (tokens : List Token) :
    Nat → Nat → Except String (Expr × Nat)
  | 0, _ => .error "fuel exhausted"
  | fuel + 1, pos =>
    match parse_expression tokens fuel pos with
    | .error e => .error e
    | .ok (expr, pos1) => tlb_loop tokens fuel pos1 [expr] expr

/-- The `while` loop inside `parse_top_level_block`.  Python rebinds
`expr = BlockExpression(statements, …)` and then appends to `statements`,
which (by aliasing) also extends the block's body; here the block is
rebuilt after the append. -/
def tlb_loop (tokens : List Token) :
    Nat → Nat → List Expr → Expr → Except String (Expr × Nat)
  | 0, _, _, _ => .error "fuel exhausted"
  | fuel + 1, pos, statements, expr =>
    let pk := peekTok tokens pos
    if pk.text == ";" || pk.text == "\x7b" ||
        ((prevTok tokens pos).text == "\x7d" && pk.type != "end") then
      let step : Except String Nat :=
        if pk.text == ";" then .ok (pos + 1)
        else if pk.text == "\x7b" && expr.isLitOrIdent then
          .error (locRepr pk.location ++ ": expected ';'")
        else .ok pos
      match step with
      | .error e => .error e
      | .ok pos1 =>
        let pk1 := peekTok tokens pos1
        if pk1.type == "end" then
          let statements1 := statements ++ [Expr.literal .noneV pk1.location UnitT]
          tlb_loop tokens fuel pos1 statements1 (.blockExpr statements1 pk1.location UnitT)
        else
          match parse_expression tokens fuel pos1 with
          | .error e => .error e
          | .ok (nxt, pos2) =>
            let statements1 := statements ++ [nxt]
            tlb_loop tokens fuel pos2 statements1 (.blockExpr statements1 pk1.location UnitT)
    else
      .ok (expr, pos)
termination_by structural fuel _ _ _ => fuel

/-- `parser.parse_block`. -/
def parse_block (tokens : List Token) : Nat → Nat → Except String (Expr × Nat)
  | 0, _ => .error "fuel exhausted"
  | fuel + 1, pos =>
    let loc := (peekTok tokens pos).location
    match consume tokens pos (some (.inl "\x7b")) with
    | .error e => .error e
    | .ok (_, pos1) =>
      match block_loop tokens fuel pos1 [] with
      | .error e => .error e
      | .ok (stmts, pos2) =>
        match consume tokens pos2 (some (.inl "\x7d")) with
        | .error e => .error e
        | .ok (_, pos3) => .ok (.blockExpr stmts loc UnitT, pos3)
termination_by structural fuel _ => fuel

/-- The `while` loop inside `parse_block`. -/
def block_loop (tokens : List Token) :
    Nat → Nat → List Expr → Except String (List Expr × Nat)
  | 0, _, _ => .error "fuel exhausted"
  | fuel + 1, pos, stmts =>
    if (peekTok tokens pos).text != "\x7d" then
      match parse_statement tokens fuel pos stmts with
      | .error e => .error e
      | .ok (stmts1, pos1) => block_loop tokens fuel pos1 stmts1
    else
      .ok (stmts, pos)
termination_by structural fuel _ _ => fuel

/-- `parser.parse_statement`: parse an expression into the statement list,
then handle the separator rules (`;`, trailing unit literal, and the
missing-semicolon error). -/
def parse_statement (tokens : List Token) :
    Nat → Nat → List Expr → Except String (List Expr × Nat)
  | 0, _, _ => .error "fuel exhausted"
  | fuel + 1, pos, stmts =>
    match parse_expression tokens fuel pos with
    | .error e => .error e
    | .ok (e, pos1) =>
      let stmts1 := stmts ++ [e]
      if (peekTok tokens pos1).text == ";" then
        let pos2 := pos1 + 1
        let pk2 := peekTok tokens pos2
        if pk2.text == "\x7d" || pk2.type == "end" then
          .ok (stmts1 ++ [Expr.literal .noneV pk2.location UnitT], pos2)
        else
          .ok (stmts1, pos2)
      else
        let pk := peekTok tokens pos1
        if e.isLitOrIdent &&
            (pk.type == "int_literal" || pk.type == "bool_literal" ||
             pk.type == "identifier" || pk.text == "\x7b") then
          .error (locRepr pk.location ++ ": expected ';'")
        else
          .ok (stmts1, pos1)
termination_by structural fuel _ _ => fuel

/-- `parser.parse_expression`: a binary term, optionally followed by a
right-associative assignment. -/
def parse_expression (tokens : List Token) : Nat → Nat → Except String (Expr × Nat)
  | 0, _ => .error "fuel exhausted"
  | fuel + 1, pos =>
    match parse_binary_term tokens fuel pos [] with
    | .error e => .error e
    | .ok (left, pos1) =>
      let pk := peekTok tokens pos1
      if pk.text == "=" then
        match parse_expression tokens fuel (pos1 + 1) with
        | .error e => .error e
        | .ok (right, pos2) => .ok (.binaryOp left "=" right pk.location UnitT, pos2)
      else
        .ok (left, pos1)
termination_by structural fuel _ => fuel

/-- `parser.parse_binary_term`; an empty `binaryOperators` list stands for
Python's `None` default (both are replaced by the default table). -/
def parse_binary_term (tokens : List Token) :
    Nat → Nat → List (List String) → Except String (Expr × Nat)
  | 0, _, _ => .error "fuel exhausted"
  | fuel + 1, pos, binaryOperators =>
    let lvls := if binaryOperators.isEmpty then defaultBinaryOperators else binaryOperators
    match parse_next_level_term tokens fuel pos lvls with
    | .error e => .error e
    | .ok (left, pos1) => for_levels tokens fuel pos1 lvls lvls left
termination_by structural fuel _ _ => fuel

/-- The `for operators in binary_operators` loop of `parse_binary_term`. -/
def for_levels (tokens : List Token) :
    Nat → Nat → List (List String) → List (List String) → Expr →
    Except String (Expr × Nat)
  | 0, _, _, _, _ => .error "fuel exhausted"
  | fuel + 1, pos, allLvls, rows, left =>
    match rows with
    | [] => .ok (left, pos)
    | row :: rest =>
      match while_row tokens fuel pos allLvls row left with
      | .error e => .error e
      | .ok (left1, pos1) => for_levels tokens fuel pos1 allLvls rest left1
termination_by structural fuel _ _ _ _ => fuel

/-- The `while peek().text in operators` loop of `parse_binary_term`. -/
def while_row (tokens : List Token) :
    Nat → Nat → List (List String) → List String → Expr →
    Except String (Expr × Nat)
  | 0, _, _, _, _ => .error "fuel exhausted"
  | fuel + 1, pos, allLvls, row, left =>
    let pk := peekTok tokens pos
    if row.contains pk.text then
      match parse_next_level_term tokens fuel (pos + 1) allLvls with
      | .error e => .error e
      | .ok (right, pos1) =>
        while_row tokens fuel pos1 allLvls row
          (.binaryOp left pk.text right pk.location UnitT)
    else
      .ok (left, pos)
termination_by structural fuel _ _ _ _ => fuel

/-- `parser.parse_next_level_term`. -/
def parse_next_level_term (tokens : List Token) :
    Nat → Nat → List (List String) → Except String (Expr × Nat)
  | 0, _, _ => .error "fuel exhausted"
  | fuel + 1, pos, lvls =>
    if lvls.length > 1 then parse_binary_term tokens fuel pos lvls.tail
    else parse_unary_term tokens fuel pos
termination_by structural fuel _ _ => fuel

/-- `parser.parse_unary_term` (the source's `while` loop returns on its
first iteration, so it is an `if`). -/
def parse_unary_term (tokens : List Token) : Nat → Nat → Except String (Expr × Nat)
  | 0, _ => .error "fuel exhausted"
  | fuel + 1, pos =>
    let pk := peekTok tokens pos
    if pk.text == "-" || pk.text == "not" then
      match parse_unary_term tokens fuel (pos + 1) with
      | .error e => .error e
      | .ok (sub, pos1) => .ok (.unaryOp pk.text sub pk.location UnitT, pos1)
    else
      parse_factor tokens fuel pos
termination_by structural fuel _ => fuel

/-- `parser.parse_factor`: dispatch on the next token, then reparse an
identifier followed by `(` as a function call. -/
def parse_factor (tokens : List Token) : Nat → Nat → Except String (Expr × Nat)
  | 0, _ => .error "fuel exhausted"
  | fuel + 1, pos =>
    let pk := peekTok tokens pos
    let factor : Except String (Expr × Nat) :=
      if pk.text == "(" then parse_parenthesized tokens fuel pos
      else if pk.type == "declaration" then parse_variable_declaration tokens fuel pos
      else if pk.text == "if" then parse_if_expression tokens fuel pos
      else if pk.text == "while" then parse_while_expression tokens fuel pos
      else if pk.type == "break_continue" then parse_break_or_continue tokens pos
      else if pk.type == "int_literal" then parse_int_literal tokens pos
      else if pk.type == "bool_literal" then parse_bool_literal tokens pos
      else if pk.type == "identifier" then parse_identifier tokens pos
      else if pk.text == "\x7b" then parse_block tokens fuel pos
      else .error (locRepr pk.location ++ ": expected an integer literal or an identifier")
    match factor with
    | .error e => .error e
    | .ok (expr, pos1) =>
      match expr with
      | .ident name identLoc _ =>
        if (peekTok tokens pos1).text == "(" then
          match parse_arguments tokens fuel pos1 with
          | .error e => .error e
          | .ok (args, pos2) =>
            .ok (.funcExpr name identLoc args (prevTok tokens pos1).location UnitT, pos2)
        else
          .ok (expr, pos1)
      | _ => .ok (expr, pos1)
termination_by structural fuel _ => fuel

/-- `parser.parse_parenthesized`. -/
def parse_parenthesized (tokens : List Token) : Nat → Nat → Except String (Expr × Nat)
  | 0, _ => .error "fuel exhausted"
  | fuel + 1, pos =>
    match consume tokens pos (some (.inl "(")) with
    | .error e => .error e
    | .ok (_, pos1) =>
      match parse_expression tokens fuel pos1 with
      | .error e => .error e
      | .ok (expr, pos2) =>
        match consume tokens pos2 (some (.inl ")")) with
        | .error e => .error e
        | .ok (_, pos3) => .ok (expr, pos3)
termination_by structural fuel _ => fuel

/-- `parser.parse_variable_declaration`. -/
def parse_variable_declaration (tokens : List Token) :
    Nat → Nat → Except String (Expr × Nat)
  | 0, _ => .error "fuel exhausted"
  | fuel + 1, pos =>
    if var_is_allowed tokens pos then
      let loc := (peekTok tokens pos).location
      match consume tokens pos (some (.inl "var")) with
      | .error e => .error e
      | .ok (_, pos1) =>
        match parse_identifier tokens pos1 with
        | .error e => .error e
        | .ok (nameE, pos2) =>
          let step : Except String (Option TypeExpr × Nat) :=
            if (peekTok tokens pos2).text == ":" then
              match parse_type_expression tokens (pos2 + 1) with
              | .error e => .error e
              | .ok (te, pos3) => .ok (some te, pos3)
            else
              .ok (none, pos2)
          match step with
          | .error e => .error e
          | .ok (typ, pos3) =>
            match consume tokens pos3 (some (.inl "=")) with
            | .error e => .error e
            | .ok (_, pos4) =>
              match parse_expression tokens fuel pos4 with
              | .error e => .error e
              | .ok (body, pos5) =>
                match nameE with
                | .ident nm nmLoc _ => .ok (.declaration nm nmLoc body typ loc UnitT, pos5)
                | _ => .error "unreachable: parse_identifier returns an identifier"
    else
      .error (locRepr (peekTok tokens pos).location ++
        ": var is only allowed inside blocks or top-level expressions")
termination_by structural fuel _ => fuel

/-- `parser.parse_if_expression`. -/
def parse_if_expression (tokens : List Token) : Nat → Nat → Except String (Expr × Nat)
  | 0, _ => .error "fuel exhausted"
  | fuel + 1, pos =>
    let loc := (peekTok tokens pos).location
    match consume tokens pos (some (.inl "if")) with
    | .error e => .error e
    | .ok (_, pos1) =>
      match parse_expression tokens fuel pos1 with
      | .error e => .error e
      | .ok (condition, pos2) =>
        match consume tokens pos2 (some (.inl "then")) with
        | .error e => .error e
        | .ok (_, pos3) =>
          match parse_expression tokens fuel pos3 with
          | .error e => .error e
          | .ok (thenClause, pos4) =>
            if (peekTok tokens pos4).text == "else" then
              match consume tokens pos4 (some (.inl "else")) with
              | .error e => .error e
              | .ok (_, pos5) =>
                match parse_expression tokens fuel pos5 with
                | .error e => .error e
                | .ok (elseClause, pos6) =>
                  .ok (.ifExpr condition thenClause (some elseClause) loc UnitT, pos6)
            else
              .ok (.ifExpr condition thenClause none loc UnitT, pos4)
termination_by structural fuel _ => fuel

/-- `parser.parse_while_expression`. -/
def parse_while_expression (tokens : List Token) :
    Nat → Nat → Except String (Expr × Nat)
  | 0, _ => .error "fuel exhausted"
  | fuel + 1, pos =>
    let loc := (peekTok tokens pos).location
    match consume tokens pos (some (.inl "while")) with
    | .error e => .error e
    | .ok (_, pos1) =>
      match parse_expression tokens fuel pos1 with
      | .error e => .error e
      | .ok (condition, pos2) =>
        match consume tokens pos2 (some (.inl "do")) with
        | .error e => .error e
        | .ok (_, pos3) =>
          match parse_expression tokens fuel pos3 with
          | .error e => .error e
          | .ok (body, pos4) => .ok (.whileExpr condition body loc UnitT, pos4)
termination_by structural fuel _ => fuel

/-- `parser.parse_arguments`. -/
def parse_arguments (tokens : List Token) :
    Nat → Nat → Except String (List Expr × Nat)
  | 0, _ => .error "fuel exhausted"
  | fuel + 1, pos =>
    match consume tokens pos (some (.inl "(")) with
    | .error e => .error e
    | .ok (_, pos1) =>
      if (peekTok tokens pos1).text == ")" then
        args_loop tokens fuel pos1 []
      else
        match parse_expression tokens fuel pos1 with
        | .error e => .error e
        | .ok (a, pos2) => args_loop tokens fuel pos2 [a]
termination_by structural fuel _ => fuel

/-- The `while peek().text == ","` loop of `parse_arguments`, ending with
the closing-parenthesis consume. -/
def args_loop (tokens : List Token) :
    Nat → Nat → List Expr → Except String (List Expr × Nat)
  | 0, _, _ => .error "fuel exhausted"
  | fuel + 1, pos, args =>
    if (peekTok tokens pos).text == "," then
      match consume tokens pos (some (.inl ",")) with
      | .error e => .error e
      | .ok (_, pos1) =>
        match parse_expression tokens fuel pos1 with
        | .error e => .error e
        | .ok (a, pos2) => args_loop tokens fuel pos2 (args ++ [a])
    else
      match consume tokens pos (some (.inl ")")) with
      | .error e => .error e
      | .ok (_, pos1) => .ok (args, pos1)
termination_by structural fuel _ _ => fuel

end

/-- Fuel supplied to the parser: ample for any token list, since every
recursive descent step either consumes a token or moves down the fixed
precedence table. -/
def parserFuel (tokens : List Token) : Nat := (tokens.length + 1) * 64

/-- `parser.parse`: empty input yields the placeholder `Expression()`;
leftover tokens after the top-level block raise `SyntaxError`. -/
def parse (tokens : List Token) : Except String Expr :=
  if tokens.isEmpty then .ok .empty
  else
    match parse_top_level_block tokens (parserFuel tokens) 0 with
    | .error e => .error e
    | .ok (expr, pos) =>
      if pos < tokens.length then
        .error (locRepr (peekTok tokens pos).location ++
          ": could not parse the whole expression")
      else
        .ok expr

/-- The `tokenize`-then-`parse` front half of the pipeline, as composed by
`utilities.parse_code`. -/
def parse_code (code fileName : String) : Except String Expr :=
  match tokenize code fileName with
  | .error e => .error e
  | .ok toks => parse toks

/-! ### Type checker, from `type_checker.py`

`SymTab` is a parent-pointer chain of scopes; here a scope chain is a list
of frames, innermost first.  `get_type` mutates only the innermost frame
(`add_local`), so the embedding threads the whole chain through each call.
The checker also writes each node's resolved type back into the node; no
later step of the checker reads those annotations, so the embedding returns
the type without rebuilding the tree.  Python exception classes are
modelled by `CheckError` constructors; the message strings (location plus
prose) are irrelevant to the claims and omitted. -/

/-- A single scope: an insertion-ordered name-to-value dict. -/
abbrev TFrame := List (String × CType)

/-- A scope chain, innermost scope first (`symtab.SymTab` parent links). -/
abbrev TChain := List TFrame

def frameLookup (f : TFrame) (n : String) : Option CType :=
  (f.find? (·.1 == n)).map (·.2)

def frameHas (f : TFrame) (n : String) : Bool :=
  (f.find? (·.1 == n)).isSome

/-- Dict assignment `locals[n] = v`: replace an existing binding in place,
else append. -/
def frameSet (f : TFrame) (n : String) (v : CType) : TFrame :=
  match f with
  | [] => [(n, v)]
  | (m, w) :: rest => if m == n then (n, v) :: rest else (m, w) :: frameSet rest n v

/-- `SymTab.get_value`: walk towards the root, returning the innermost
binding (or nothing). -/
def chainLookupT : TChain → String → Option CType
  | [], _ => none
  | f :: rest, n =>
    match frameLookup f n with
    | some v => some v
    | none => chainLookupT rest n

/-- `SymTab.add_local` on the innermost scope. -/
def chainAddT (c : TChain) (n : String) (v : CType) : TChain :=
  match c with
  | [] => [[(n, v)]]
  | f :: rest => frameSet f n v :: rest

/-- The exception class a checker failure raises (`TypeError`,
`NameError`, `SyntaxError`, and Python's `ValueError`/`IndexError` from
destructuring a `FunType` with the wrong number of parameters). -/
inductive CheckError where
  | typeError
  | nameError
  | syntaxError
  | valueError
deriving DecidableEq, Repr

/-- `type_checker.typecheck`'s `known_types` resolution inside `convert`:
type names resolve only to the three scalar types (a missing annotation
yields `Unit`). -/
def convert (te : Option TypeExpr) : Except CheckError CType :=
  match te with
  | none => .ok UnitT
  | some t =>
    if t.name == "Bool" then .ok BoolT
    else if t.name == "Int" then .ok IntT
    else if t.name == "Unit" then .ok UnitT
    else .error .typeError

/-- `type_checker.typecheck`'s pre-populated `root_table` of built-ins and
operators (note `read_int` is registered as `(Int) → Int` in the source). -/
def root_table : TFrame :=
  [("print_int", .fn "function" [IntT] UnitT),
   ("print_bool", .fn "function" [BoolT] UnitT),
   ("read_int", .fn "function" [IntT] IntT),
   ("+", .fn "operator" [IntT, IntT] IntT),
   ("-", .fn "operator" [IntT, IntT] IntT),
   ("*", .fn "operator" [IntT, IntT] IntT),
   ("/", .fn "operator" [IntT, IntT] IntT),
   ("%", .fn "operator" [IntT, IntT] IntT),
   ("<", .fn "operator" [IntT, IntT] BoolT),
   ("<=", .fn "operator" [IntT, IntT] BoolT),
   (">", .fn "operator" [IntT, IntT] BoolT),
   (">=", .fn "operator" [IntT, IntT] BoolT),
   ("==", .fn "operator" [] BoolT),
   ("!=", .fn "operator" [] BoolT),
   ("unary_-", .fn "operator" [IntT] IntT),
   ("unary_not", .fn "operator" [BoolT] BoolT),
   ("and", .fn "operator" [BoolT, BoolT] BoolT),
   ("or", .fn "operator" [BoolT, BoolT] BoolT)]

/-- The `for i, types in enumerate(zip(func_type.params, arg_types))`
check of the `FuncExpression` case: `zip` stops at the shorter list, so
only the first `min` pairs are compared. -/
def paramsMatch : List CType → List CType → Bool
  | p :: ps, a :: rest => if p = a then paramsMatch ps rest else false
  | _, _ => true

mutual

/-- `type_checker.get_type` (with `assign_type`'s node mutation elided):
`frv` is the enclosing `function_return_value`, constant during a walk.
Python's `is` comparisons between type objects are embedded as structural
equality, which is exact on the interned scalar singletons involved in
every comparison the theorems below exercise. -/
def getType (frv : Option CType) :
    Nat → Option Expr → TChain → Except CheckError (CType × TChain)
  | 0, _, _ => .error .valueError
  | _ + 1, none, table => .ok (UnitT, table)
  | fuel + 1, some e, table =>
    match e with
    | .literal v _ _ =>
      -- the `(None, Unit)` pair never matches (`type(None) == None` is false),
      -- so a `None` literal falls through to the final `return Unit` as well
      match v with
      | .intV _ => .ok (IntT, table)
      | .boolV _ => .ok (BoolT, table)
      | .noneV => .ok (UnitT, table)
    | .ident name _ _ =>
      match chainLookupT table name with
      | some t => .ok (t, table)
      | none => .error .nameError
    | .binaryOp l op r _ _ =>
      match getType frv fuel (some l) table with
      | .error err => .error err
      | .ok (t1, tab1) =>
        match getType frv fuel (some r) tab1 with
        | .error err => .error err
        | .ok (t2, tab2) =>
          if op == "=" || op == "==" || op == "!=" then
            if t1 ≠ t2 then .error .typeError
            else .ok (if op == "=" then t2 else BoolT, tab2)
          else
            match chainLookupT tab2 op with
            | some (.fn _ ps ret) =>
              match ps with
              | [b1, b2] =>
                if t1 ≠ b1 then .error .typeError
                else if t2 ≠ b2 then .error .typeError
                else .ok (ret, tab2)
              | _ => .error .valueError
            | _ => .ok (UnitT, tab2)
    | .unaryOp op sub _ _ =>
      match getType frv fuel (some sub) table with
      | .error err => .error err
      | .ok (t1, tab1) =>
        match chainLookupT tab1 ("unary_" ++ op) with
        | some (.fn _ ps ret) =>
          match ps with
          | p0 :: _ =>
            if t1 ≠ p0 then .error .typeError else .ok (ret, tab1)
          | [] => .error .valueError
        | _ => .ok (UnitT, tab1)
    | .whileExpr cond body _ _ =>
      match getType frv fuel (some cond) table with
      | .error err => .error err
      | .ok (t1, tab1) =>
        if t1 = BoolT then getType frv fuel (some body) tab1
        else .error .typeError
    | .ifExpr cond thenC elseC _ _ =>
      match getType frv fuel (some cond) table with
      | .error err => .error err
      | .ok (t1, tab1) =>
        if t1 ≠ BoolT then .error .typeError
        else
          match getType frv fuel (some thenC) tab1 with
          | .error err => .error err
          | .ok (t2, tab2) =>
            match getType frv fuel elseC tab2 with
            | .error err => .error err
            | .ok (t3, tab3) =>
              if t3 = UnitT then .ok (t2, tab3)
              else if t2 ≠ t3 then .error .typeError
              else .ok (t3, tab3)
    | .blockExpr body _ _ =>
      match getTypeList frv fuel body ([] :: table) with
      | .error err => .error err
      | .ok (ts, tab1) => .ok (ts.getLastD UnitT, tab1.tail)
    | .declaration name _ sub tyE _ _ =>
      match getType frv fuel (some sub) table with
      | .error err => .error err
      | .ok (t1, tab1) =>
        let annotated : Except CheckError Unit :=
          match tyE with
          | none => .ok ()
          | some te =>
            match convert (some te) with
            | .error err => .error err
            | .ok t2 => if t1 ≠ t2 then .error .typeError else .ok ()
        match annotated with
        | .error err => .error err
        | .ok () =>
          if frameHas (tab1.headD []) name then .error .nameError
          else .ok (UnitT, chainAddT tab1 name t1)
    | .returnExpr res _ _ =>
      match frv with
      | some expected =>
        match getType frv fuel res table with
        | .error err => .error err
        | .ok (t1, tab1) =>
          if t1 = expected then .ok (UnitT, tab1) else .error .typeError
      | none => .error .syntaxError
    | .funcExpr name _ args _ _ =>
      match chainLookupT table name with
      | none => .error .nameError
      | some funcType =>
        match funcType with
        | .fn _ ps ret =>
          match getTypeList frv fuel args table with
          | .error err => .error err
          | .ok (argTypes, tab1) =>
            if paramsMatch ps argTypes then .ok (ret, tab1)
            else .error .typeError
        | _ => .ok (UnitT, table)
    | .typeExpr _ _ _ => .ok (UnitT, table)
    | .breakExpr _ _ => .ok (UnitT, table)
    | .continueExpr _ _ => .ok (UnitT, table)
    | .empty => .ok (UnitT, table)

/-- Sequential `assign_type` over a list of expressions (block bodies and
call arguments), collecting the types in order. -/
def getTypeList (frv : Option CType) :
    Nat → List Expr → TChain → Except CheckError (List CType × TChain)
  | 0, _, _ => .error .valueError
  | _ + 1, [], table => .ok ([], table)
  | fuel + 1, e :: rest, table =>
    match getType frv fuel (some e) table with
    | .error err => .error err
    | .ok (t, tab1) =>
      match getTypeList frv fuel rest tab1 with
      | .error err => .error err
      | .ok (ts, tab2) => .ok (t :: ts, tab2)

end

/-- `type_checker.typecheck` for an `Expression` root: the root expression
is checked in a fresh scope whose parent is the builtins table, with no
enclosing function return type. -/
def typecheck (fuel : Nat) (e : Expr) : Except CheckError (CType × TChain) :=
  getType none fuel (some e) [[], root_table]

/-! ### IR, modelled from the spec

`Modelled from the spec:` the file `compiler/ir.py` is not among the
sources (only its callers `ir_generator.py` and `assembly_generator.py`
are), so the IR value classes follow §3 of the specification: `IRVar` is a
named temporary compared by name; `Label` is `(location, name)`; every
instruction carries a location, and `Label` itself is an instruction. -/

/-- `ir.IRVar`: equality and hashing by name. -/
structure IRVar where
  name : String
deriving DecidableEq, Repr

/-- `ir.Label`'s data `(location, name)`. -/
structure IRLabel where
  loc : Location
  name : String
deriving DecidableEq, Repr

/-- The IR instructions of §3 of the spec, as constructed by
`ir_generator.py` and consumed by `assembly_generator.py`. -/
inductive Instruction where
  | loadIntConst (loc : Location) (value : Int) (dest : IRVar)
  | loadBoolConst (loc : Location) (value : Bool) (dest : IRVar)
  | copy (loc : Location) (source : IRVar) (dest : IRVar)
  | call (loc : Location) (fn : IRVar) (args : List IRVar) (dest : IRVar)
  | jump (loc : Location) (label : IRLabel)
  | condJump (loc : Location) (cond : IRVar) (thenLabel : IRLabel) (elseLabel : IRLabel)
  | labelIns (lbl : IRLabel)
  | functionDef (loc : Location) (name : String) (args : List IRVar)
  | ret (loc : Location) (result : IRVar)
deriving DecidableEq, Repr

/-! ### IR generator, from `ir_generator.py` -/

/-- The shared `unit` IRVar. -/
def varUnit : IRVar := ⟨"unit"⟩

/-- Name of the `i`-th variable minted by the `x`-prefixed generator. -/
def xName (k : Nat) : String := "x" ++ toString k

/-- The mutable state of one `generate_ir_body` invocation: the
instruction list, the `var_types` dict, the `ir_labels_adjust` dict (a
total function, `0` meaning absent), the loop depth, and the position of
the infinite `ir_vars` generator. -/
structure GenState where
  ins : List Instruction
  varTypes : List (IRVar × CType)
  labels : String → Nat
  loopDepth : Nat
  counter : Nat

/-- Membership test `variable in var_types`. -/
def vtContains (vt : List (IRVar × CType)) (v : IRVar) : Bool :=
  vt.any (·.1 == v)

/-- Dict assignment `var_types[v] = t`. -/
def vtSet (vt : List (IRVar × CType)) (v : IRVar) (t : CType) : List (IRVar × CType) :=
  match vt with
  | [] => [(v, t)]
  | (w, s) :: rest => if w == v then (v, t) :: rest else (w, s) :: vtSet rest v t

/-- Dict lookup `var_types[v]`. -/
def vtGet (vt : List (IRVar × CType)) (v : IRVar) : Option CType :=
  (vt.find? (·.1 == v)).map (·.2)

/-- The `while variable in var_types` skip inside `new_var`: the first
index `k' ≥ k` whose `x`-name is unbound.  The fuel `|var_types| + 1`
always suffices (the candidate names are distinct, the dict keys finite);
the exhausted branch is unreachable. -/
def nextFreeIdx (vt : List (IRVar × CType)) : Nat → Nat → Nat
  | 0, k => k
  | fuel + 1, k => if vtContains vt ⟨xName k⟩ then nextFreeIdx vt fuel (k + 1) else k

/-- `ir_generator.generate_ir_body`'s nested `new_var`. -/
def newVar (s : GenState) (t : CType) : IRVar × GenState :=
  let j := nextFreeIdx s.varTypes (s.varTypes.length + 1) s.counter
  (⟨xName j⟩,
   { s with counter := j + 1, varTypes := vtSet s.varTypes ⟨xName j⟩ t })

/-- `ir_generator.generate_ir_body`'s nested `new_label`: the first use of
a base name is unsuffixed; later uses append the incremented per-name
counter.  Every label is located at the root expression's location. -/
def newLabel (rootLoc : Location) (s : GenState) (name : String) : IRLabel × GenState :=
  let n := s.labels name
  if n == 0 then
    (⟨rootLoc, name⟩, { s with labels := Function.update s.labels name 1 })
  else
    (⟨rootLoc, name ++ toString (n + 1)⟩,
     { s with labels := Function.update s.labels name (n + 1) })

/-- The label name `break`/`continue` computes from the loop depth
(`start_end if loop_depth == 1 else f"{start_end}{loop_depth}"`), which is
also the name `new_label` gives the `k`-th label minted from a base. -/
def wlName (base : String) (k : Nat) : String :=
  if k == 1 then base else base ++ toString k

/-- A scope frame of the IR generator's `SymTab[IRVar]`. -/
abbrev VFrame := List (String × IRVar)

/-- IR-generator scope chain, innermost first. -/
abbrev VChain := List VFrame

def vframeLookup (f : VFrame) (n : String) : Option IRVar :=
  (f.find? (·.1 == n)).map (·.2)

def vframeSet (f : VFrame) (n : String) (v : IRVar) : VFrame :=
  match f with
  | [] => [(n, v)]
  | (m, w) :: rest => if m == n then (n, v) :: rest else (m, w) :: vframeSet rest n v

def chainLookupV : VChain → String → Option IRVar
  | [], _ => none
  | f :: rest, n =>
    match vframeLookup f n with
    | some v => some v
    | none => chainLookupV rest n

def chainAddV (c : VChain) (n : String) (v : IRVar) : VChain :=
  match c with
  | [] => [[(n, v)]]
  | f :: rest => vframeSet f n v :: rest

mutual

/-- `ir_generator.generate_ir_body`'s nested `visit`: lowers one typed AST
node, appending instructions to the state and returning the node's value
variable.  `NameError`/`KeyError`/`SyntaxError` paths and the
fuel-exhausted branch yield `none`. -/
def visit (rootLoc : Location) :
    Nat → VChain → GenState → Expr → Option (IRVar × VChain × GenState)
  | 0, _, _, _ => none
  | fuel + 1, st, s, e =>
    match e with
    | .literal v loc _ =>
      match v with
      | .boolV b =>
        let (var, s1) := newVar s BoolT
        some (var, st, { s1 with ins := s1.ins ++ [Instruction.loadBoolConst loc b var] })
      | .intV n =>
        let (var, s1) := newVar s IntT
        some (var, st, { s1 with ins := s1.ins ++ [Instruction.loadIntConst loc n var] })
      | .noneV => some (varUnit, st, s)
    | .ident name _ _ =>
      match chainLookupV st name with
      | some v => some (v, st, s)
      | none => none
    | .binaryOp left op right loc ty =>
      match visit rootLoc fuel st s left with
      | none => none
      | some (varLeft, st1, s1) =>
        if op == "=" then
          match visit rootLoc fuel st1 s1 right with
          | none => none
          | some (varRight, st2, s2) =>
            some (varLeft, st2, { s2 with ins := s2.ins ++ [Instruction.copy loc varRight varLeft] })
        else if op == "and" || op == "or" then
          let pfx := if op == "and" then "and" else "or"
          let (lRight, s2) := newLabel rootLoc s1 (pfx ++ "_right")
          let (lSkip, s3) := newLabel rootLoc s2 (pfx ++ "_skip")
          let (lEnd, s4) := newLabel rootLoc s3 (pfx ++ "_end")
          let s5 := { s4 with ins := s4.ins ++
            [if pfx == "and" then Instruction.condJump loc varLeft lRight lSkip
             else Instruction.condJump loc varLeft lSkip lRight] }
          let s6 := { s5 with ins := s5.ins ++ [Instruction.labelIns lRight] }
          match visit rootLoc fuel st1 s6 right with
          | none => none
          | some (varRight, st2, s7) =>
            let (varResult, s8) := newVar s7 BoolT
            let s9 := { s8 with ins := s8.ins ++
              [Instruction.copy loc varRight varResult, Instruction.jump loc lEnd, Instruction.labelIns lSkip,
               Instruction.loadBoolConst loc (op != "and") varResult, Instruction.jump loc lEnd,
               Instruction.labelIns lEnd] }
            some (varResult, st2, s9)
        else
          match chainLookupV st1 op with
          | none => none
          | some varOp =>
            match visit rootLoc fuel st1 s1 right with
            | none => none
            | some (varRight, st2, s2) =>
              let (varResult, s3) := newVar s2 ty
              some (varResult, st2,
                { s3 with ins := s3.ins ++ [Instruction.call loc varOp [varLeft, varRight] varResult] })
    | .unaryOp op sub loc ty =>
      match chainLookupV st ("unary_" ++ op) with
      | none => none
      | some unaryOpVar =>
        match visit rootLoc fuel st s sub with
        | none => none
        | some (unaryVar, st1, s1) =>
          let (unaryResult, s2) := newVar s1 ty
          some (unaryResult, st1,
            { s2 with ins := s2.ins ++ [Instruction.call loc unaryOpVar [unaryVar] unaryResult] })
    | .whileExpr cond body loc _ =>
      let (lStart, s1) := newLabel rootLoc s "while_start"
      let (lBody, s2) := newLabel rootLoc s1 "while_body"
      let (lEnd, s3) := newLabel rootLoc s2 "while_end"
      let s4 := { s3 with ins := s3.ins ++ [Instruction.labelIns lStart] }
      match visit rootLoc fuel st s4 cond with
      | none => none
      | some (whileCond, st1, s5) =>
        let s6 := { s5 with ins := s5.ins ++ [Instruction.condJump loc whileCond lBody lEnd] }
        let s7 :=
          { s6 with ins := s6.ins ++ [Instruction.labelIns lBody], loopDepth := s6.loopDepth + 1 }
        match visit rootLoc fuel st1 s7 body with
        | none => none
        | some (_, st2, s8) =>
          let s9 :=
            { s8 with ins := s8.ins ++ [Instruction.jump loc lStart, Instruction.labelIns lEnd], loopDepth := s8.loopDepth - 1 }
          some (varUnit, st2, s9)
    | .breakExpr loc _ =>
      if s.loopDepth > 0 then
        some (varUnit, st,
          { s with ins := s.ins ++ [Instruction.jump loc ⟨loc, wlName "while_end" s.loopDepth⟩] })
      else
        none
    | .continueExpr loc _ =>
      if s.loopDepth > 0 then
        some (varUnit, st,
          { s with ins := s.ins ++ [Instruction.jump loc ⟨loc, wlName "while_start" s.loopDepth⟩] })
      else
        none
    | .ifExpr cond thenC elseC loc ty =>
      let (lThen, s1) := newLabel rootLoc s "then"
      match visit rootLoc fuel st s1 cond with
      | none => none
      | some (varCond, st1, s2) =>
        match elseC with
        | none =>
          let (lIfEnd, s3) := newLabel rootLoc s2 "if_end"
          let s4 := { s3 with ins := s3.ins ++
            [Instruction.condJump loc varCond lThen lIfEnd, Instruction.labelIns lThen] }
          match visit rootLoc fuel st1 s4 thenC with
          | none => none
          | some (_, st2, s5) =>
            some (varUnit, st2, { s5 with ins := s5.ins ++ [Instruction.labelIns lIfEnd] })
        | some elseE =>
          let (lElse, s3) := newLabel rootLoc s2 "else"
          let (lIfEnd, s4) := newLabel rootLoc s3 "if_end"
          let s5 := { s4 with ins := s4.ins ++ [Instruction.condJump loc varCond lThen lElse] }
          let (copyVar, s6) :=
            newVar s5 (if ty = BoolT then BoolT else if ty = IntT then IntT else UnitT)
          let s7 := { s6 with ins := s6.ins ++ [Instruction.labelIns lThen] }
          match visit rootLoc fuel st1 s7 thenC with
          | none => none
          | some (thenVar0, st2, s8) =>
            let thenVar := if thenVar0.name == "unit" then IRVar.mk "Unit" else thenVar0
            let s9 := { s8 with ins := s8.ins ++
              [Instruction.copy loc thenVar copyVar, Instruction.jump loc lIfEnd, Instruction.labelIns lElse] }
            match visit rootLoc fuel st2 s9 elseE with
            | none => none
            | some (elseVar0, st3, s10) =>
              let elseVar := if elseVar0.name == "unit" then IRVar.mk "Unit" else elseVar0
              some (copyVar, st3, { s10 with ins := s10.ins ++
                [Instruction.copy loc elseVar copyVar, Instruction.labelIns lIfEnd] })
    | .blockExpr body _ _ =>
      match visitList rootLoc fuel ([] :: st) s body with
      | none => none
      | some (vs, st1, s1) => some (vs.getLastD varUnit, st1.tail, s1)
    | .declaration name _ sub _ loc _ =>
      match visit rootLoc fuel st s sub with
      | none => none
      | some (decValue, st1, s1) =>
        let (decVariable, s2) := newVar s1 sub.tyOf
        let s3 := { s2 with ins := s2.ins ++ [Instruction.copy loc decValue decVariable] }
        some (varUnit, chainAddV st1 name decVariable, s3)
    | .returnExpr res loc _ =>
      match res with
      | some r =>
        match visit rootLoc fuel st s r with
        | none => none
        | some (result, st1, s1) =>
          some (varUnit, st1, { s1 with ins := s1.ins ++ [Instruction.ret loc result] })
      | none => some (varUnit, st, { s with ins := s.ins ++ [Instruction.ret loc varUnit] })
    | .funcExpr name _ args loc _ =>
      match visitList rootLoc fuel st s args with
      | none => none
      | some (funcVars, st1, s1) =>
        match chainLookupV st1 name with
        | none => none
        | some func =>
          match vtGet s1.varTypes func with
          | none => none
          | some retTy =>
            let (resultVar, s2) := newVar s1 retTy
            some (resultVar, st1,
              { s2 with ins := s2.ins ++ [Instruction.call loc func funcVars resultVar] })
    | .typeExpr _ _ _ => none
    | .empty => none

/-- Sequential `visit` over a list of expressions (block bodies hold on to
the last value; call arguments keep them all). -/
def visitList (rootLoc : Location) :
    Nat → VChain → GenState → List Expr → Option (List IRVar × VChain × GenState)
  | 0, _, _, _ => none
  | _ + 1, st, s, [] => some ([], st, s)
  | fuel + 1, st, s, e :: rest =>
    match visit rootLoc fuel st s e with
    | none => none
    | some (v, st1, s1) =>
      match visitList rootLoc fuel st1 s1 rest with
      | none => none
      | some (vs, st2, s2) => some (v :: vs, st2, s2)

end

/-- `ir_generator.generate_ir_body`: sets up the per-function state (the
`unit` variable, the root symbol table built from `root_types`, the
`start` label), visits the root expression, and closes the list with the
`main`-specific `print_int`/`print_bool` call and the final `Return`. -/
def generate_ir_body (fuel : Nat) (rootTypes : List (IRVar × CType))
    (rootExpr : Expr) (insInit : List Instruction) (isFunction : Bool) :
    Option (List Instruction) :=
  let varTypes := vtSet rootTypes varUnit UnitT
  let rootLoc := rootExpr.locOf
  let s0 : GenState :=
    { ins := insInit, varTypes := varTypes, labels := fun _ => 0,
      loopDepth := 0, counter := 1 }
  let rootSymtable : VChain := [rootTypes.map (fun p => (p.1.name, p.1))]
  let (lStart, s1) := newLabel rootLoc s0 "start"
  let s2 := { s1 with ins := s1.ins ++ [Instruction.labelIns lStart] }
  match visit rootLoc fuel rootSymtable s2 rootExpr with
  | none => none
  | some (varFinal, _, s3) =>
    if isFunction then
      match s3.ins.getLast? with
      | some (.ret _ _) => some s3.ins
      | _ => some (s3.ins ++ [Instruction.ret rootExpr.locOf varUnit])
    else
      match vtGet s3.varTypes varFinal with
      | none => none
      | some t =>
        if t = IntT then
          match chainLookupV rootSymtable "print_int" with
          | none => none
          | some pi =>
            let (nv, s4) := newVar s3 IntT
            some (s4.ins ++ [Instruction.call rootLoc pi [varFinal] nv, Instruction.ret rootExpr.locOf varUnit])
        else if t = BoolT then
          match chainLookupV rootSymtable "print_bool" with
          | none => none
          | some pb =>
            let (nv, s4) := newVar s3 BoolT
            some (s4.ins ++ [Instruction.call rootLoc pb [varFinal] nv, Instruction.ret rootExpr.locOf varUnit])
        else
          some (s3.ins ++ [Instruction.ret rootExpr.locOf varUnit])

/-- Dict assignment `instructions[name] = ir_list` for the per-function
result map. -/
def dictSetIns (m : List (String × List Instruction)) (n : String)
    (l : List Instruction) : List (String × List Instruction) :=
  match m with
  | [] => [(n, l)]
  | (k, v) :: rest => if k == n then (n, l) :: rest else (k, v) :: dictSetIns rest n l

/-- The `for node in root_node.body` loop of `ir_generator.generate_ir`. -/
def generate_ir_module (fuel : Nat) (rootTypes : List (IRVar × CType)) :
    List (Sum FuncDef Expr) → List (String × List Instruction) →
    Option (List (String × List Instruction))
  | [], acc => some acc
  | .inl fd :: rest, acc =>
    let functionTypes := fd.params.foldl
      (fun vt p => vtSet vt ⟨p.name⟩ p.typeExpression.ty) rootTypes
    let paramList : List IRVar := fd.params.map (fun p => ⟨p.name⟩)
    let funcIr := Instruction.functionDef fd.loc fd.name paramList
    match generate_ir_body fuel functionTypes fd.body [funcIr] true with
    | none => none
    | some l => generate_ir_module fuel rootTypes rest (dictSetIns acc fd.name l)
  | .inr e :: rest, acc =>
    let funcIr := Instruction.functionDef e.locOf "main" []
    match generate_ir_body fuel rootTypes e [funcIr] false with
    | none => none
    | some l => generate_ir_module fuel rootTypes rest (dictSetIns acc "main" l)

/-- `ir_generator.generate_ir`: a `Module` yields one list per body node;
a bare expression becomes the single function `main`. -/
def generate_ir (fuel : Nat) (rootTypes : List (IRVar × CType))
    (rootNode : Sum ModuleAst Expr) : Option (List (String × List Instruction)) :=
  match rootNode with
  | .inl m => generate_ir_module fuel rootTypes m.body []
  | .inr e =>
    let funcIr := Instruction.functionDef e.locOf "main" []
    match generate_ir_body fuel rootTypes e [funcIr] false with
    | none => none
    | some l => some [("main", l)]

/-! ### Assembly emitter, from `assembly_generator.py` -/

/-- The IRVar-valued dataclass fields of one instruction, in field order
(lists flattened in place), as `get_all_ir_variables` visits them via
`dataclasses.fields`. -/
def insIRVars : Instruction → List IRVar
  | .loadIntConst _ _ d => [d]
  | .loadBoolConst _ _ d => [d]
  | .copy _ src d => [src, d]
  | .call _ f a d => [f] ++ a ++ [d]
  | .jump _ _ => []
  | .condJump _ c _ _ => [c]
  | .labelIns _ => []
  | .functionDef _ _ a => a
  | .ret _ r => [r]

/-- The initial `result_set` of `get_all_ir_variables`: built-in and
operator names that never receive a stack slot. -/
def reservedInit : List IRVar :=
  [⟨"print_int"⟩, ⟨"print_bool"⟩, ⟨"read_int"⟩, ⟨"+"⟩, ⟨"-"⟩, ⟨"*"⟩, ⟨"/"⟩,
   ⟨"%"⟩, ⟨"<"⟩, ⟨"<="⟩, ⟨">"⟩, ⟨">="⟩, ⟨"=="⟩, ⟨"!="⟩, ⟨"unary_-"⟩,
   ⟨"unary_not"⟩]

/-- `assembly_generator.get_all_ir_variables`: ordered, deduplicated IRVars
referenced by `instructions[1:]`, excluding the reserved set, `reserved`,
and the `unit` sentinel. -/
def get_all_ir_variables (instructions : List Instruction) (reserved : List IRVar) :
    List IRVar :=
  let step := fun (st : List IRVar × List IRVar) (v : IRVar) =>
    if st.2.contains v || v.name == "unit" then st
    else (st.1 ++ [v], v :: st.2)
  ((instructions.drop 1).foldl
    (fun st ins => (insIRVars ins).foldl step st)
    ([], reservedInit ++ reserved)).1

/-- `assembly_generator.Locals`: each variable gets the stack slot
`-8i(%rbp)` with `i` counted from 1 in order. -/
structure Locals where
  varToLocation : List (IRVar × String)
  stackUsed : Nat

/-- `Locals.__init__`. -/
def mkLocals (vars : List IRVar) : Locals :=
  { varToLocation :=
      vars.mapIdx (fun i v => (v, "-" ++ toString ((i + 1) * 8) ++ "(%rbp)")),
    stackUsed := vars.length }

/-- `Locals.get_ref` (`KeyError` on an unknown variable becomes `none`). -/
def Locals.getRef (lv : Locals) (v : IRVar) : Option String :=
  (lv.varToLocation.find? (·.1 == v)).map (·.2)

/-- `Locals.in_locals`. -/
def Locals.inLocals (lv : Locals) (v : IRVar) : Bool :=
  (lv.varToLocation.find? (·.1 == v)).isSome

/-- The C-ABI argument registers used by calls and prologues. -/
def callRegisters : List String :=
  ["%rdi", "%rsi", "%rdx", "%rcx", "%r8", "%r9"]

/-- Modelled from the spec: `compiler/intrinsics.py` is not among the
sources, so the intrinsic emitters follow §6 of the specification; each
maps the argument slot references to inline assembly targeting `%rax`.
The `Call` case of the claims below never dispatches to an intrinsic, so
only the domain of this table matters to them. -/
def intrinsicLines (name : String) (args : List String) : Option (List String) :=
  let a0 := args.getD 0 ""
  let a1 := args.getD 1 ""
  let cmp := fun (setcc : String) =>
    some ["xor %rax, %rax", "movq " ++ a0 ++ ", %rdx", "cmpq " ++ a1 ++ ", %rdx",
          setcc ++ " %al"]
  if name == "+" then some ["movq " ++ a0 ++ ", %rax", "addq " ++ a1 ++ ", %rax"]
  else if name == "-" then some ["movq " ++ a0 ++ ", %rax", "subq " ++ a1 ++ ", %rax"]
  else if name == "*" then some ["movq " ++ a0 ++ ", %rax", "imulq " ++ a1 ++ ", %rax"]
  else if name == "/" then some ["movq " ++ a0 ++ ", %rax", "cqto", "idivq " ++ a1]
  else if name == "%" then
    some ["movq " ++ a0 ++ ", %rax", "cqto", "idivq " ++ a1, "movq %rdx, %rax"]
  else if name == "<" then cmp "setl"
  else if name == "<=" then cmp "setle"
  else if name == ">" then cmp "setg"
  else if name == ">=" then cmp "setge"
  else if name == "==" then cmp "sete"
  else if name == "!=" then cmp "setne"
  else if name == "unary_-" then some ["movq " ++ a0 ++ ", %rax", "negq %rax"]
  else if name == "unary_not" then some ["movq " ++ a0 ++ ", %rax", "xorq $1, %rax"]
  else none

/-- The per-instruction `match ins` block of
`assembly_generator.generate_assembly_function` (lines 113-163), with the
exact emitted strings, indentation included; the `""` spacer and the
`"    # " + str(ins)` comment line preceding each instruction are omitted
as pure commentary.  A `KeyError` from `Locals.get_ref` becomes `none`. -/
def instructionLines (lv : Locals) (func : String) : Instruction → Option (List String)
  | .labelIns l => some ["    .L" ++ func ++ "_" ++ l.name ++ ":"]
  | .loadIntConst _ v d =>
    (lv.getRef d).map fun slot =>
      if -(2 ^ 31 : Int) ≤ v ∧ v < 2 ^ 31 then
        ["    movq $" ++ toString v ++ ", " ++ slot]
      else
        ["    movabsq $" ++ toString v ++ ", %rax", "    movq %rax, " ++ slot]
  | .loadBoolConst _ b d =>
    (lv.getRef d).map fun slot =>
      ["    movq $" ++ (if b then "1" else "0") ++ ", " ++ slot]
  | .jump _ l => some ["    jmp .L" ++ func ++ "_" ++ l.name]
  | .copy _ src d =>
    match lv.getRef src, lv.getRef d with
    | some s, some t => some ["    movq " ++ s ++ ", %rax", "    movq %rax, " ++ t]
    | _, _ => none
  | .condJump _ c t e =>
    (lv.getRef c).map fun slot =>
      ["    cmpq $0, " ++ slot,
       "    jne .L" ++ func ++ "_" ++ t.name,
       "    jmp .L" ++ func ++ "_" ++ e.name]
  | .call _ f args d =>
    match args.mapM lv.getRef with
    | none => none
    | some argRefs =>
      match intrinsicLines f.name argRefs with
      | some lines =>
        (lv.getRef d).map fun slot => lines ++ ["movq %rax, " ++ slot]
      | none =>
        match lv.getRef d with
        | none => none
        | some slot =>
          let notAligned := lv.stackUsed * 8 % 16 != 0
          some ((if notAligned then ["subq $8, %rsp"] else []) ++
            ((argRefs.zip callRegisters).map fun p => "movq " ++ p.1 ++ ", " ++ p.2) ++
            ["callq " ++ f.name, "movq %rax, " ++ slot] ++
            (if notAligned then ["addq $8, %rsp"] else []))
  | .ret _ r =>
    let rv := match lv.getRef r with
      | some slot => slot
      | none => "$0"
    some ["    movq " ++ rv ++ ", %rax", "    movq %rbp, %rsp", "    popq %rbp",
          "    ret"]
  | .functionDef _ _ _ => some []

/-- `assembly_generator.generate_assembly_function` (comment lines
omitted): symbol directives, prologue with argument spills and stack
reservation, then the instruction emissions in order. -/
def generate_assembly_function (instructions : List Instruction) (func : String)
    (reservedVars : List IRVar) : Option (List String) :=
  let localVars := mkLocals (get_all_ir_variables instructions reservedVars)
  let header :=
    ["    # " ++ func ++ "()", "    .global " ++ func,
     "    .type " ++ func ++ ", @function", "", "    " ++ func ++ ":",
     "    pushq %rbp", "    movq %rsp, %rbp"]
  let argMoves :=
    match instructions.head? with
    | some (.functionDef _ _ args) =>
      (args.zip callRegisters).filterMap fun p =>
        match localVars.getRef p.1 with
        | some slot => some ("    movq " ++ p.2 ++ ", " ++ slot)
        | none => none
    | _ => []
  let sub :=
    ["    subq $" ++
      toString (if localVars.stackUsed == 0 then 8 else localVars.stackUsed * 8) ++
      ", %rsp"]
  match instructions.mapM (instructionLines localVars func) with
  | none => none
  | some bodyLines => some (header ++ argMoves ++ sub ++ bodyLines.flatten)

/-! ### The jump-target invariant (claim C5)

Terminology for the invariant proof: `jumpTargets` are the label names an
instruction references, `labelNames` the names of the `Label` instructions
of a list.  The generator state invariant `GPre` records that the three
`while_*` label counters advance in lockstep (they are minted together)
and bound the loop depth; `GPost` relates the states before and after a
`visit`, recording that instructions are only appended, that every jump
target appended is either a label appended in the same span or one of the
`while_start`/`while_end` names already accounted for by the counter, and
that every `while` loop entered during the span appends both its labels
within the span. -/

/-- Names of labels referenced by an instruction. -/
def jumpTargets : Instruction → List String
  | .jump _ l => [l.name]
  | .condJump _ _ t e => [t.name, e.name]
  | _ => []

def jumpTargetsList : List Instruction → List String
  | [] => []
  | i :: rest => jumpTargets i ++ jumpTargetsList rest

/-- Names of the `Label` instructions occurring in a list. -/
def labelNames : List Instruction → List String
  | [] => []
  | i :: rest =>
    match i with
    | .labelIns l => l.name :: labelNames rest
    | _ => labelNames rest

/-- Example program `while true do break`, used to exercise the generator. -/
def whileBreakExpr : Expr :=
  Expr.whileExpr (Expr.literal (LitValue.boolV true) noLoc BoolT)
    (Expr.breakExpr noLoc UnitT) noLoc UnitT

/-- The IR that `generate_ir` produces for [whileBreakExpr]. -/
def whileBreakIns : List Instruction :=
  [Instruction.functionDef noLoc "main" [],
   Instruction.labelIns ⟨noLoc, "start"⟩,
   Instruction.labelIns ⟨noLoc, "while_start"⟩,
   Instruction.loadBoolConst noLoc true ⟨"x1"⟩,
   Instruction.condJump noLoc ⟨"x1"⟩ ⟨noLoc, "while_body"⟩ ⟨noLoc, "while_end"⟩,
   Instruction.labelIns ⟨noLoc, "while_body"⟩,
   Instruction.jump noLoc ⟨noLoc, "while_end"⟩,
   Instruction.jump noLoc ⟨noLoc, "while_start"⟩,
   Instruction.labelIns ⟨noLoc, "while_end"⟩,
   Instruction.ret noLoc ⟨"unit"⟩]

/-- Example program `{ while true do 1; while true do break }`: a `break`
inside the second of two sibling loops. -/
def siblingLoopsExpr : Expr :=
  Expr.blockExpr
    [Expr.whileExpr (Expr.literal (LitValue.boolV true) noLoc BoolT)
       (Expr.literal (LitValue.intV 1) noLoc IntT) noLoc UnitT,
     Expr.whileExpr (Expr.literal (LitValue.boolV true) noLoc BoolT)
       (Expr.breakExpr noLoc UnitT) noLoc UnitT]
    noLoc UnitT

/-- The IR that `generate_ir` produces for [siblingLoopsExpr]. -/
def siblingLoopsIns : List Instruction :=
  [Instruction.functionDef noLoc "main" [],
   Instruction.labelIns ⟨noLoc, "start"⟩,
   Instruction.labelIns ⟨noLoc, "while_start"⟩,
   Instruction.loadBoolConst noLoc true ⟨"x1"⟩,
   Instruction.condJump noLoc ⟨"x1"⟩ ⟨noLoc, "while_body"⟩ ⟨noLoc, "while_end"⟩,
   Instruction.labelIns ⟨noLoc, "while_body"⟩,
   Instruction.loadIntConst noLoc 1 ⟨"x2"⟩,
   Instruction.jump noLoc ⟨noLoc, "while_start"⟩,
   Instruction.labelIns ⟨noLoc, "while_end"⟩,
   Instruction.labelIns ⟨noLoc, "while_start2"⟩,
   Instruction.loadBoolConst noLoc true ⟨"x3"⟩,
   Instruction.condJump noLoc ⟨"x3"⟩ ⟨noLoc, "while_body2"⟩ ⟨noLoc, "while_end2"⟩,
   Instruction.labelIns ⟨noLoc, "while_body2"⟩,
   Instruction.jump noLoc ⟨noLoc, "while_end"⟩,
   Instruction.jump noLoc ⟨noLoc, "while_start2"⟩,
   Instruction.labelIns ⟨noLoc, "while_end2"⟩,
   Instruction.ret noLoc ⟨"unit"⟩]

theorem jumpTargetsList_append (a b : List Instruction) :
    jumpTargetsList (a ++ b) = jumpTargetsList a ++ jumpTargetsList b := by
  induction a with
  | nil => rfl
  | cons i rest ih => simp [jumpTargetsList, ih]

theorem labelNames_append (a b : List Instruction) :
    labelNames (a ++ b) = labelNames a ++ labelNames b := by
  induction a with
  | nil => rfl
  | cons i rest ih => cases i <;> simp [labelNames, ih]

/-- `t` is a `while_start`/`while_end` label name whose index the counter
`c` accounts for. -/
def WTarget (c : Nat) (t : String) : Prop :=
  ∃ k, 1 ≤ k ∧ k ≤ c ∧ (t = wlName "while_start" k ∨ t = wlName "while_end" k)

/-- Every jump target of `Δ` is a label of `Δ` or a counted while label. -/
def TargetsOK (Δ : List Instruction) (c : Nat) : Prop :=
  ∀ t ∈ jumpTargetsList Δ, t ∈ labelNames Δ ∨ WTarget c t

/-- Both labels of every while loop numbered in `(c0, c1]` occur in `Δ`. -/
def NewLabels (Δ : List Instruction) (c0 c1 : Nat) : Prop :=
  ∀ k, c0 < k → k ≤ c1 →
    wlName "while_start" k ∈ labelNames Δ ∧ wlName "while_end" k ∈ labelNames Δ

/-- Generator-state invariant: the three `while_*` counters agree and
bound the loop depth. -/
def GPre (s : GenState) : Prop :=
  s.labels "while_start" = s.labels "while_end" ∧
  s.labels "while_body" = s.labels "while_end" ∧
  s.loopDepth ≤ s.labels "while_end"

/-- What one `visit` span guarantees (see the section comment). -/
def GPost (s s' : GenState) : Prop :=
  GPre s' ∧ s'.loopDepth = s.loopDepth ∧
  s.labels "while_end" ≤ s'.labels "while_end" ∧
  ∃ Δ, s'.ins = s.ins ++ Δ ∧ TargetsOK Δ (s'.labels "while_end") ∧
    NewLabels Δ (s.labels "while_end") (s'.labels "while_end")

/-- Every jump target of the list is one of its own label names. -/
def JumpTargetsClosed (l : List Instruction) : Prop :=
  ∀ t ∈ jumpTargetsList l, t ∈ labelNames l

theorem WTarget.widen (h : c ≤ c') (hw : WTarget c t) : WTarget c' t := by
  obtain ⟨k, h1, h2, h3⟩ := hw
  exact ⟨k, h1, le_trans h2 h, h3⟩

theorem TargetsOK.mono (h : c ≤ c') (ht : TargetsOK Δ c) : TargetsOK Δ c' :=
  fun t hm => (ht t hm).imp id (WTarget.widen h)

theorem TargetsOK.nil : TargetsOK [] c := by
  intro t hm
  simp [jumpTargetsList] at hm

theorem TargetsOK.append (h1 : TargetsOK Δ1 c) (h2 : TargetsOK Δ2 c) :
    TargetsOK (Δ1 ++ Δ2) c := by
  intro t hm
  rw [jumpTargetsList_append, List.mem_append] at hm
  rw [labelNames_append]
  rcases hm with hm | hm
  · exact (h1 t hm).imp (fun h => List.mem_append.mpr (.inl h)) id
  · exact (h2 t hm).imp (fun h => List.mem_append.mpr (.inr h)) id

theorem NewLabels.refl (Δ : List Instruction) (c : Nat) : NewLabels Δ c c := by
  intro k h1 h2
  omega

theorem NewLabels.comp (h1 : NewLabels Δ c0 c1) (h2 : NewLabels Δ c1 c2) :
    NewLabels Δ c0 c2 := by
  intro k hk1 hk2
  by_cases h : k ≤ c1
  · exact h1 k hk1 h
  · exact h2 k (by omega) hk2

theorem NewLabels.mono_list (h : NewLabels Δ c0 c1)
    (hsub : ∀ x ∈ labelNames Δ, x ∈ labelNames Δ') : NewLabels Δ' c0 c1 := by
  intro k hk1 hk2
  exact ⟨hsub _ (h k hk1 hk2).1, hsub _ (h k hk1 hk2).2⟩

theorem GPost.trans (h1 : GPost s s1) (h2 : GPost s1 s2) : GPost s s2 := by
  obtain ⟨p1, d1, m1, Δ1, i1, t1, n1⟩ := h1
  obtain ⟨p2, d2, m2, Δ2, i2, t2, n2⟩ := h2
  refine ⟨p2, d2.trans d1, m1.trans m2, Δ1 ++ Δ2, ?_, ?_, ?_⟩
  · rw [i2, i1, List.append_assoc]
  · exact TargetsOK.append (t1.mono m2) t2
  · refine @NewLabels.comp _ _ (s1.labels "while_end") _ ?_ ?_
    · exact n1.mono_list (fun x hx => by
        rw [labelNames_append, List.mem_append]; exact .inl hx)
    · exact n2.mono_list (fun x hx => by
        rw [labelNames_append, List.mem_append]; exact .inr hx)

theorem GPost.of_same (hpre : GPre s) (h1 : s'.ins = s.ins)
    (h2 : s'.labels = s.labels) (h3 : s'.loopDepth = s.loopDepth) : GPost s s' := by
  refine ⟨?_, h3, by rw [h2], [], by rw [h1, List.append_nil], TargetsOK.nil,
    by rw [h2]; exact NewLabels.refl _ _⟩
  obtain ⟨a, b, c⟩ := hpre
  exact ⟨by rw [h2]; exact a, by rw [h2]; exact b, by rw [h2, h3]; exact c⟩

theorem GPost.of_append (hpre : GPre s)
    (h : TargetsOK L (s.labels "while_end")) :
    GPost s { s with ins := s.ins ++ L } :=
  ⟨hpre, rfl, le_refl _, L, rfl, h, NewLabels.refl _ _⟩

/-! Facts about `newLabel` and `newVar`. -/

theorem newLabel_name (rootLoc : Location) (s : GenState) (nm : String) :
    (newLabel rootLoc s nm).1.name = wlName nm (s.labels nm + 1) := by
  unfold newLabel wlName
  by_cases h : s.labels nm = 0 <;> simp [h]

theorem newLabel_labels_self (rootLoc : Location) (s : GenState) (nm : String) :
    (newLabel rootLoc s nm).2.labels nm = s.labels nm + 1 := by
  unfold newLabel
  by_cases h : s.labels nm = 0 <;> simp [h, Function.update]

theorem newLabel_labels_other (rootLoc : Location) (s : GenState) (nm m : String)
    (h : m ≠ nm) : (newLabel rootLoc s nm).2.labels m = s.labels m := by
  unfold newLabel
  by_cases h0 : s.labels nm = 0 <;> simp [h0, Function.update, h]

theorem newLabel_ins (rootLoc : Location) (s : GenState) (nm : String) :
    (newLabel rootLoc s nm).2.ins = s.ins := by
  unfold newLabel
  by_cases h0 : s.labels nm = 0 <;> simp [h0]

theorem newLabel_loopDepth (rootLoc : Location) (s : GenState) (nm : String) :
    (newLabel rootLoc s nm).2.loopDepth = s.loopDepth := by
  unfold newLabel
  by_cases h0 : s.labels nm = 0 <;> simp [h0]

theorem newVar_ins (s : GenState) (t : CType) : (newVar s t).2.ins = s.ins := rfl

theorem newVar_labels (s : GenState) (t : CType) : (newVar s t).2.labels = s.labels := rfl

theorem newVar_loopDepth (s : GenState) (t : CType) :
    (newVar s t).2.loopDepth = s.loopDepth := rfl

/-- `GPost` across a `newLabel` with a base other than the three `while_*`
counters. -/
theorem GPost.of_newLabel (rootLoc : Location) (s : GenState) (nm : String)
    (hpre : GPre s) (h1 : nm ≠ "while_start") (h2 : nm ≠ "while_body")
    (h3 : nm ≠ "while_end") : GPost s (newLabel rootLoc s nm).2 := by
  obtain ⟨a, b, c⟩ := hpre
  have e1 := newLabel_labels_other rootLoc s nm "while_start" (fun he => h1 he.symm)
  have e2 := newLabel_labels_other rootLoc s nm "while_body" (fun he => h2 he.symm)
  have e3 := newLabel_labels_other rootLoc s nm "while_end" (fun he => h3 he.symm)
  refine ⟨⟨by rw [e1, e3]; exact a, by rw [e2, e3]; exact b,
    by rw [e3, newLabel_loopDepth]; exact c⟩,
    newLabel_loopDepth rootLoc s nm, by rw [e3],
    [], by rw [newLabel_ins, List.append_nil], TargetsOK.nil,
    by rw [e3]; exact NewLabels.refl _ _⟩

/-- `GPost` across a `newVar`. -/
theorem GPost.of_newVar (s : GenState) (t : CType) (hpre : GPre s) :
    GPost s (newVar s t).2 :=
  GPost.of_same hpre rfl rfl rfl

theorem TargetsOK.of_nil_targets (h : jumpTargetsList L = []) : TargetsOK L c :=
  fun t hm => by rw [h] at hm; cases hm

set_option maxHeartbeats 1600000 in
/-- The central invariant: a successful `visit` (or `visitList`) span
preserves `GPre` and satisfies `GPost`. -/
theorem visit_gpost (fuel : Nat) :
    (∀ (rootLoc : Location) (st : VChain) (s : GenState) (e : Expr)
       (v : IRVar) (st' : VChain) (s' : GenState),
       visit rootLoc fuel st s e = some (v, st', s') → GPre s → GPost s s') ∧
    (∀ (rootLoc : Location) (st : VChain) (s : GenState) (es : List Expr)
       (vs : List IRVar) (st' : VChain) (s' : GenState),
       visitList rootLoc fuel st s es = some (vs, st', s') → GPre s → GPost s s') := by
  induction fuel with
  | zero =>
    constructor
    · intro rootLoc st s e v st' s' h
      simp [visit] at h
    · intro rootLoc st s es vs st' s' h
      simp [visitList] at h
  | succ fuel ih =>
    obtain ⟨ihV, ihL⟩ := ih
    constructor
    · intro rootLoc st s e v st' s' h hpre
      cases e with
      | literal val loc ty =>
        cases val with
        | boolV b =>
          simp only [visit, Option.some.injEq, Prod.mk.injEq] at h
          obtain ⟨_, _, hs'⟩ := h
          subst hs'
          have h1 := GPost.of_newVar s BoolT hpre
          exact h1.trans (GPost.of_append h1.1 (TargetsOK.of_nil_targets rfl))
        | intV n =>
          simp only [visit, Option.some.injEq, Prod.mk.injEq] at h
          obtain ⟨_, _, hs'⟩ := h
          subst hs'
          have h1 := GPost.of_newVar s IntT hpre
          exact h1.trans (GPost.of_append h1.1 (TargetsOK.of_nil_targets rfl))
        | noneV =>
          simp only [visit, Option.some.injEq, Prod.mk.injEq] at h
          obtain ⟨_, _, hs'⟩ := h
          subst hs'
          exact GPost.of_same hpre rfl rfl rfl
      | ident name loc ty =>
        simp only [visit] at h
        cases hc : chainLookupV st name with
        | none => rw [hc] at h; cases h
        | some w =>
          rw [hc] at h
          simp only [Option.some.injEq, Prod.mk.injEq] at h
          obtain ⟨_, _, hs'⟩ := h
          subst hs'
          exact GPost.of_same hpre rfl rfl rfl
      | breakExpr loc ty =>
        simp only [visit] at h
        split at h
        · simp only [Option.some.injEq, Prod.mk.injEq] at h
          obtain ⟨_, _, hs'⟩ := h
          subst hs'
          refine GPost.of_append hpre ?_
          intro t hm
          simp [jumpTargetsList, jumpTargets] at hm
          subst hm
          exact .inr ⟨s.loopDepth, by omega, hpre.2.2, .inr rfl⟩
        · cases h
      | continueExpr loc ty =>
        simp only [visit] at h
        split at h
        · simp only [Option.some.injEq, Prod.mk.injEq] at h
          obtain ⟨_, _, hs'⟩ := h
          subst hs'
          refine GPost.of_append hpre ?_
          intro t hm
          simp [jumpTargetsList, jumpTargets] at hm
          subst hm
          refine .inr ⟨s.loopDepth, by omega, ?_, .inl rfl⟩
          exact hpre.1 ▸ hpre.2.2
        · cases h
      | typeExpr name loc ty => simp [visit] at h
      | empty => simp [visit] at h
      | returnExpr res loc ty =>
        cases res with
        | some r =>
          simp only [visit] at h
          cases h1 : visit rootLoc fuel st s r with
          | none => rw [h1] at h; cases h
          | some r1 =>
            obtain ⟨result, st1, s1⟩ := r1
            rw [h1] at h
            simp only [Option.some.injEq, Prod.mk.injEq] at h
            obtain ⟨_, _, hs'⟩ := h
            subst hs'
            have hp1 := ihV rootLoc st s r result st1 s1 h1 hpre
            exact hp1.trans (GPost.of_append hp1.1 (TargetsOK.of_nil_targets rfl))
        | none =>
          simp only [visit, Option.some.injEq, Prod.mk.injEq] at h
          obtain ⟨_, _, hs'⟩ := h
          subst hs'
          exact GPost.of_append hpre (TargetsOK.of_nil_targets rfl)
      | declaration name nmLoc sub tyE loc ty =>
        simp only [visit] at h
        cases h1 : visit rootLoc fuel st s sub with
        | none => rw [h1] at h; cases h
        | some r1 =>
          obtain ⟨decValue, st1, s1⟩ := r1
          rw [h1] at h
          simp only [Option.some.injEq, Prod.mk.injEq] at h
          obtain ⟨_, _, hs'⟩ := h
          subst hs'
          have hp1 := ihV rootLoc st s sub decValue st1 s1 h1 hpre
          have hp2 := GPost.of_newVar s1 sub.tyOf hp1.1
          exact (hp1.trans hp2).trans
            (GPost.of_append hp2.1 (TargetsOK.of_nil_targets rfl))
      | blockExpr body loc ty =>
        simp only [visit] at h
        cases h1 : visitList rootLoc fuel ([] :: st) s body with
        | none => rw [h1] at h; cases h
        | some r1 =>
          obtain ⟨vs, st1, s1⟩ := r1
          rw [h1] at h
          simp only [Option.some.injEq, Prod.mk.injEq] at h
          obtain ⟨_, _, hs'⟩ := h
          subst hs'
          exact ihL rootLoc ([] :: st) s body vs st1 s1 h1 hpre
      | funcExpr name idLoc args loc ty =>
        simp only [visit] at h
        cases h1 : visitList rootLoc fuel st s args with
        | none => rw [h1] at h; cases h
        | some r1 =>
          obtain ⟨funcVars, st1, s1⟩ := r1
          rw [h1] at h
          simp only [] at h
          cases h2 : chainLookupV st1 name with
          | none => rw [h2] at h; cases h
          | some func =>
            rw [h2] at h
            simp only [] at h
            cases h3 : vtGet s1.varTypes func with
            | none => rw [h3] at h; cases h
            | some retTy =>
              rw [h3] at h
              simp only [Option.some.injEq, Prod.mk.injEq] at h
              obtain ⟨_, _, hs'⟩ := h
              subst hs'
              have hp1 := ihL rootLoc st s args funcVars st1 s1 h1 hpre
              have hp2 := GPost.of_newVar s1 retTy hp1.1
              exact (hp1.trans hp2).trans
                (GPost.of_append hp2.1 (TargetsOK.of_nil_targets rfl))
      | unaryOp op sub loc ty =>
        simp only [visit] at h
        cases h0 : chainLookupV st ("unary_" ++ op) with
        | none => rw [h0] at h; cases h
        | some unaryOpVar =>
          rw [h0] at h
          simp only [] at h
          cases h1 : visit rootLoc fuel st s sub with
          | none => rw [h1] at h; cases h
          | some r1 =>
            obtain ⟨unaryVar, st1, s1⟩ := r1
            rw [h1] at h
            simp only [] at h
            simp only [Option.some.injEq, Prod.mk.injEq] at h
            obtain ⟨_, _, hs'⟩ := h
            subst hs'
            have hp1 := ihV rootLoc st s sub unaryVar st1 s1 h1 hpre
            have hp2 := GPost.of_newVar s1 ty hp1.1
            exact (hp1.trans hp2).trans
              (GPost.of_append hp2.1 (TargetsOK.of_nil_targets rfl))
      | binaryOp left op right loc ty =>
        simp only [visit] at h
        cases h1 : visit rootLoc fuel st s left with
        | none => rw [h1] at h; cases h
        | some r1 =>
          obtain ⟨varLeft, st1, s1⟩ := r1
          rw [h1] at h
          simp only [] at h
          have hp1 := ihV rootLoc st s left varLeft st1 s1 h1 hpre
          by_cases hq : (op == "=") = true
          · rw [if_pos hq] at h
            cases h2 : visit rootLoc fuel st1 s1 right with
            | none => rw [h2] at h; cases h
            | some r2 =>
              obtain ⟨varRight, st2, s2⟩ := r2
              rw [h2] at h
              simp only [Option.some.injEq, Prod.mk.injEq] at h
              obtain ⟨_, _, hs'⟩ := h
              subst hs'
              have hp2 := ihV rootLoc st1 s1 right varRight st2 s2 h2 hp1.1
              exact (hp1.trans hp2).trans
                (GPost.of_append hp2.1 (TargetsOK.of_nil_targets rfl))
          · rw [if_neg hq] at h
            by_cases hao : (op == "and" || op == "or") = true
            · rw [if_pos hao] at h
              by_cases hand : (op == "and") = true
              · simp only [hand, if_true, String.reduceAppend, String.reduceEq,
                  eq_self_iff_true, reduceIte] at h
                rcases hR : newLabel rootLoc s1 "and_right" with ⟨lR, sA⟩
                rw [hR] at h
                rcases hS : newLabel rootLoc sA "and_skip" with ⟨lS, sB⟩
                rw [hS] at h
                rcases hE : newLabel rootLoc sB "and_end" with ⟨lE, sC⟩
                rw [hE] at h
                simp only [] at h
                split at h
                · cases h
                · rename_i varRight st2 s7 heq
                  rcases hv : newVar s7 BoolT with ⟨vres, s8⟩
                  rw [hv] at h
                  simp only [Option.some.injEq, Prod.mk.injEq] at h
                  obtain ⟨_, _, hs'⟩ := h
                  subst hs'
                  have gA : GPost s1 sA := by
                    have := GPost.of_newLabel rootLoc s1 "and_right" hp1.1
                      (by decide) (by decide) (by decide)
                    rwa [hR] at this
                  have gB : GPost sA sB := by
                    have := GPost.of_newLabel rootLoc sA "and_skip" gA.1
                      (by decide) (by decide) (by decide)
                    rwa [hS] at this
                  have gC : GPost sB sC := by
                    have := GPost.of_newLabel rootLoc sB "and_end" gB.1
                      (by decide) (by decide) (by decide)
                    rwa [hE] at this
                  have hp2 := ihV _ _ _ right varRight st2 s7 heq gC.1
                  obtain ⟨pr7, dep7, mono7, Dr, hins7, tgt7, new7⟩ := hp2
                  have e8i : s8.ins = s7.ins := by
                    have := newVar_ins s7 BoolT
                    rwa [hv] at this
                  have e8l : s8.labels = s7.labels := by
                    have := newVar_labels s7 BoolT
                    rwa [hv] at this
                  have e8d : s8.loopDepth = s7.loopDepth := by
                    have := newVar_loopDepth s7 BoolT
                    rwa [hv] at this
                  refine hp1.trans (gA.trans (gB.trans (gC.trans
                    (⟨?_, ?_, ?_,
                      [Instruction.condJump loc varLeft lR lS, Instruction.labelIns lR]
                        ++ Dr ++
                        [Instruction.copy loc varRight vres, Instruction.jump loc lE,
                         Instruction.labelIns lS,
                         Instruction.loadBoolConst loc (op != "and") vres,
                         Instruction.jump loc lE, Instruction.labelIns lE],
                      ?_, ?_, ?_⟩ : GPost sC _))))
                  · exact ⟨by rw [e8l]; exact pr7.1, by rw [e8l]; exact pr7.2.1,
                      by rw [e8l, e8d]; exact pr7.2.2⟩
                  · show s8.loopDepth = sC.loopDepth
                    rw [e8d]
                    exact dep7
                  · show sC.labels "while_end" ≤ s8.labels "while_end"
                    rw [e8l]
                    exact mono7
                  · show s8.ins ++ _ = sC.ins ++ _
                    rw [e8i, hins7]
                    simp [List.append_assoc]
                  · show TargetsOK _ (s8.labels "while_end")
                    rw [e8l]
                    intro t ht
                    simp [jumpTargetsList_append, jumpTargetsList, jumpTargets] at ht
                    by_cases hd : t ∈ jumpTargetsList Dr
                    · rcases tgt7 t hd with hl | hw
                      · left
                        simp [labelNames_append, labelNames]
                        tauto
                      · exact .inr hw
                    · left
                      simp [labelNames_append, labelNames]
                      tauto
                  · show NewLabels _ (sC.labels "while_end") (s8.labels "while_end")
                    rw [e8l]
                    refine new7.mono_list ?_
                    intro x hx
                    simp [labelNames_append, labelNames]
                    tauto
              · rw [if_neg hand] at h
                simp only [String.reduceAppend, String.reduceEq, reduceIte,
                  Bool.false_eq_true, if_false] at h
                rcases hR : newLabel rootLoc s1 "or_right" with ⟨lR, sA⟩
                rw [hR] at h
                rcases hS : newLabel rootLoc sA "or_skip" with ⟨lS, sB⟩
                rw [hS] at h
                rcases hE : newLabel rootLoc sB "or_end" with ⟨lE, sC⟩
                rw [hE] at h
                simp only [] at h
                split at h
                · cases h
                · rename_i varRight st2 s7 heq
                  rcases hv : newVar s7 BoolT with ⟨vres, s8⟩
                  rw [hv] at h
                  simp only [Option.some.injEq, Prod.mk.injEq] at h
                  obtain ⟨_, _, hs'⟩ := h
                  subst hs'
                  have gA : GPost s1 sA := by
                    have := GPost.of_newLabel rootLoc s1 "or_right" hp1.1
                      (by decide) (by decide) (by decide)
                    rwa [hR] at this
                  have gB : GPost sA sB := by
                    have := GPost.of_newLabel rootLoc sA "or_skip" gA.1
                      (by decide) (by decide) (by decide)
                    rwa [hS] at this
                  have gC : GPost sB sC := by
                    have := GPost.of_newLabel rootLoc sB "or_end" gB.1
                      (by decide) (by decide) (by decide)
                    rwa [hE] at this
                  have hp2 := ihV _ _ _ right varRight st2 s7 heq gC.1
                  obtain ⟨pr7, dep7, mono7, Dr, hins7, tgt7, new7⟩ := hp2
                  have e8i : s8.ins = s7.ins := by
                    have := newVar_ins s7 BoolT
                    rwa [hv] at this
                  have e8l : s8.labels = s7.labels := by
                    have := newVar_labels s7 BoolT
                    rwa [hv] at this
                  have e8d : s8.loopDepth = s7.loopDepth := by
                    have := newVar_loopDepth s7 BoolT
                    rwa [hv] at this
                  refine hp1.trans (gA.trans (gB.trans (gC.trans
                    (⟨?_, ?_, ?_,
                      [Instruction.condJump loc varLeft lS lR, Instruction.labelIns lR]
                        ++ Dr ++
                        [Instruction.copy loc varRight vres, Instruction.jump loc lE,
                         Instruction.labelIns lS,
                         Instruction.loadBoolConst loc (op != "and") vres,
                         Instruction.jump loc lE, Instruction.labelIns lE],
                      ?_, ?_, ?_⟩ : GPost sC _))))
                  · exact ⟨by rw [e8l]; exact pr7.1, by rw [e8l]; exact pr7.2.1,
                      by rw [e8l, e8d]; exact pr7.2.2⟩
                  · show s8.loopDepth = sC.loopDepth
                    rw [e8d]
                    exact dep7
                  · show sC.labels "while_end" ≤ s8.labels "while_end"
                    rw [e8l]
                    exact mono7
                  · show s8.ins ++ _ = sC.ins ++ _
                    rw [e8i, hins7]
                    simp [List.append_assoc]
                  · show TargetsOK _ (s8.labels "while_end")
                    rw [e8l]
                    intro t ht
                    simp [jumpTargetsList_append, jumpTargetsList, jumpTargets] at ht
                    by_cases hd : t ∈ jumpTargetsList Dr
                    · rcases tgt7 t hd with hl | hw
                      · left
                        simp [labelNames_append, labelNames]
                        tauto
                      · exact .inr hw
                    · left
                      simp [labelNames_append, labelNames]
                      tauto
                  · show NewLabels _ (sC.labels "while_end") (s8.labels "while_end")
                    rw [e8l]
                    refine new7.mono_list ?_
                    intro x hx
                    simp [labelNames_append, labelNames]
                    tauto
            · rw [if_neg hao] at h
              cases h2 : chainLookupV st1 op with
              | none => rw [h2] at h; cases h
              | some varOp =>
                rw [h2] at h
                simp only [] at h
                cases h3 : visit rootLoc fuel st1 s1 right with
                | none => rw [h3] at h; cases h
                | some r3 =>
                  obtain ⟨varRight, st2, s2⟩ := r3
                  rw [h3] at h
                  simp only [Option.some.injEq, Prod.mk.injEq] at h
                  obtain ⟨_, _, hs'⟩ := h
                  subst hs'
                  have hp2 := ihV _ _ _ right varRight st2 s2 h3 hp1.1
                  have hp3 := GPost.of_newVar s2 ty hp2.1
                  exact (hp1.trans (hp2.trans hp3)).trans
                    (GPost.of_append hp3.1 (TargetsOK.of_nil_targets rfl))
      
      | whileExpr cond body loc ty =>
        simp only [visit] at h
        rcases hA : newLabel rootLoc s "while_start" with ⟨lSt, sA⟩
        rw [hA] at h
        rcases hB : newLabel rootLoc sA "while_body" with ⟨lB, sB⟩
        rw [hB] at h
        rcases hC : newLabel rootLoc sB "while_end" with ⟨lE, sC⟩
        rw [hC] at h
        simp only [] at h
        split at h
        · cases h
        · rename_i wc st1 s5 heqc
          split at h
          · cases h
          · rename_i bv st2 s8 heqb
            simp only [Option.some.injEq, Prod.mk.injEq] at h
            obtain ⟨_, _, hs'⟩ := h
            subst hs'
            obtain ⟨hsync1, hsync2, hdep⟩ := hpre
            -- bookkeeping for the three freshly minted while labels
            have eAs : sA.labels "while_start" = s.labels "while_start" + 1 := by
              have := newLabel_labels_self rootLoc s "while_start"
              rwa [hA] at this
            have eAb : sA.labels "while_body" = s.labels "while_body" := by
              have := newLabel_labels_other rootLoc s "while_start" "while_body" (by decide)
              rwa [hA] at this
            have eAe : sA.labels "while_end" = s.labels "while_end" := by
              have := newLabel_labels_other rootLoc s "while_start" "while_end" (by decide)
              rwa [hA] at this
            have eBs : sB.labels "while_start" = sA.labels "while_start" := by
              have := newLabel_labels_other rootLoc sA "while_body" "while_start" (by decide)
              rwa [hB] at this
            have eBb : sB.labels "while_body" = sA.labels "while_body" + 1 := by
              have := newLabel_labels_self rootLoc sA "while_body"
              rwa [hB] at this
            have eBe : sB.labels "while_end" = sA.labels "while_end" := by
              have := newLabel_labels_other rootLoc sA "while_body" "while_end" (by decide)
              rwa [hB] at this
            have eCs : sC.labels "while_start" = sB.labels "while_start" := by
              have := newLabel_labels_other rootLoc sB "while_end" "while_start" (by decide)
              rwa [hC] at this
            have eCb : sC.labels "while_body" = sB.labels "while_body" := by
              have := newLabel_labels_other rootLoc sB "while_end" "while_body" (by decide)
              rwa [hC] at this
            have eCe : sC.labels "while_end" = sB.labels "while_end" + 1 := by
              have := newLabel_labels_self rootLoc sB "while_end"
              rwa [hC] at this
            have cins : sC.ins = s.ins := by
              have i1 := newLabel_ins rootLoc s "while_start"
              rw [hA] at i1
              have i2 := newLabel_ins rootLoc sA "while_body"
              rw [hB] at i2
              have i3 := newLabel_ins rootLoc sB "while_end"
              rw [hC] at i3
              rw [i3, i2, i1]
            have cdep : sC.loopDepth = s.loopDepth := by
              have d1 := newLabel_loopDepth rootLoc s "while_start"
              rw [hA] at d1
              have d2 := newLabel_loopDepth rootLoc sA "while_body"
              rw [hB] at d2
              have d3 := newLabel_loopDepth rootLoc sB "while_end"
              rw [hC] at d3
              rw [d3, d2, d1]
            have nA : lSt.name = wlName "while_start" (s.labels "while_end" + 1) := by
              have := newLabel_name rootLoc s "while_start"
              rw [hA] at this
              rw [this, hsync1]
            have nB : lB.name = wlName "while_body" (s.labels "while_end" + 1) := by
              have := newLabel_name rootLoc sA "while_body"
              rw [hB] at this
              rw [this, eAb, hsync2]
            have nC : lE.name = wlName "while_end" (s.labels "while_end" + 1) := by
              have := newLabel_name rootLoc sB "while_end"
              rw [hC] at this
              rw [this, eBe, eAe]
            have hpreC : GPre sC :=
              ⟨by omega, by omega, by omega⟩
            have hp5 := ihV _ _ _ cond wc st1 s5 heqc hpreC
            obtain ⟨pr5, dep5, mono5, Dc, hins5, tgt5, new5⟩ := hp5
            have hpre7 : GPre { { s5 with
                ins := s5.ins ++ [Instruction.condJump loc wc lB lE] } with
                ins := (s5.ins ++ [Instruction.condJump loc wc lB lE]) ++
                  [Instruction.labelIns lB],
                loopDepth := s5.loopDepth + 1 } := by
              refine ⟨pr5.1, pr5.2.1, ?_⟩
              show s5.loopDepth + 1 ≤ s5.labels "while_end"
              have h5d : s5.loopDepth = sC.loopDepth := dep5
              have h5m : sC.labels "while_end" ≤ s5.labels "while_end" := mono5
              omega
            have hp8 := ihV _ _ _ body bv st2 s8 heqb hpre7
            obtain ⟨pr8, dep8, mono8, Db, hins8, tgt8, new8⟩ := hp8
            have new5' : NewLabels Dc (sC.labels "while_end") (s5.labels "while_end") := new5
            have new8' : NewLabels Db (s5.labels "while_end") (s8.labels "while_end") := new8
            have h8d : s8.loopDepth = s5.loopDepth + 1 := dep8
            have h8m : s5.labels "while_end" ≤ s8.labels "while_end" := mono8
            have h5d : s5.loopDepth = sC.loopDepth := dep5
            have h5m : sC.labels "while_end" ≤ s5.labels "while_end" := mono5
            refine ⟨⟨pr8.1, pr8.2.1, ?_⟩, ?_, ?_, [Instruction.labelIns lSt] ++ Dc ++
              [Instruction.condJump loc wc lB lE, Instruction.labelIns lB] ++ Db ++
              [Instruction.jump loc lSt, Instruction.labelIns lE], ?_, ?_, ?_⟩
            · show s8.loopDepth - 1 ≤ s8.labels "while_end"
              have := pr8.2.2
              omega
            · show s8.loopDepth - 1 = s.loopDepth
              omega
            · show s.labels "while_end" ≤ s8.labels "while_end"
              omega
            · show s8.ins ++ _ = s.ins ++ _
              rw [hins8, hins5]
              simp [cins, List.append_assoc]
            · show TargetsOK _ (s8.labels "while_end")
              intro t ht
              simp [jumpTargetsList_append, jumpTargetsList, jumpTargets] at ht
              by_cases hc1 : t ∈ jumpTargetsList Dc
              · rcases tgt5 t hc1 with hl | hw
                · left
                  simp [labelNames_append, labelNames]
                  tauto
                · exact .inr (hw.widen h8m)
              · by_cases hc2 : t ∈ jumpTargetsList Db
                · rcases tgt8 t hc2 with hl | hw
                  · left
                    simp [labelNames_append, labelNames]
                    tauto
                  · exact .inr hw
                · left
                  simp [labelNames_append, labelNames]
                  tauto
            · show NewLabels _ (s.labels "while_end") (s8.labels "while_end")
              intro k hk1 hk2
              by_cases hk : k ≤ s.labels "while_end" + 1
              · have hke : k = s.labels "while_end" + 1 := by omega
                subst hke
                constructor
                · rw [← nA]
                  simp [labelNames_append, labelNames]
                · rw [← nC]
                  simp [labelNames_append, labelNames]
              · by_cases hk5 : k ≤ s5.labels "while_end"
                · have hcc : sC.labels "while_end" < k := by omega
                  have := new5' k hcc hk5
                  constructor
                  · have := this.1
                    simp only [labelNames_append, List.mem_append]
                    tauto
                  · have := this.2
                    simp only [labelNames_append, List.mem_append]
                    tauto
                · have := new8' k (by omega) hk2
                  constructor
                  · have := this.1
                    simp only [labelNames_append, List.mem_append]
                    tauto
                  · have := this.2
                    simp only [labelNames_append, List.mem_append]
                    tauto
      | ifExpr cond thenC elseC loc ty =>
        cases elseC with
        | none =>
          simp only [visit] at h
          rcases hT : newLabel rootLoc s "then" with ⟨lT, s1⟩
          rw [hT] at h
          simp only [] at h
          split at h
          · cases h
          · rename_i varCond st1 s2 heqc
            rcases hI : newLabel rootLoc s2 "if_end" with ⟨lI, s3⟩
            rw [hI] at h
            simp only [] at h
            split at h
            · cases h
            · rename_i tv st2 s5 heqt
              simp only [Option.some.injEq, Prod.mk.injEq] at h
              obtain ⟨_, _, hs'⟩ := h
              subst hs'
              have gT : GPost s s1 := by
                have := GPost.of_newLabel rootLoc s "then" hpre
                  (by decide) (by decide) (by decide)
                rwa [hT] at this
              have hp2 := ihV _ _ _ cond varCond st1 s2 heqc gT.1
              have gI : GPost s2 s3 := by
                have := GPost.of_newLabel rootLoc s2 "if_end" hp2.1
                  (by decide) (by decide) (by decide)
                rwa [hI] at this
              have hp5 := ihV _ _ _ thenC tv st2 s5 heqt gI.1
              obtain ⟨pr5, dep5, mono5, Dt, hins5, tgt5, new5⟩ := hp5
              have new5' : NewLabels Dt (s3.labels "while_end") (s5.labels "while_end") := new5
              refine gT.trans (hp2.trans (gI.trans (⟨pr5, dep5, mono5,
                [Instruction.condJump loc varCond lT lI, Instruction.labelIns lT] ++ Dt ++
                  [Instruction.labelIns lI], ?_, ?_, ?_⟩ :
                GPost s3 { s5 with ins := s5.ins ++ [Instruction.labelIns lI] })))
              · show s5.ins ++ _ = s3.ins ++ _
                rw [hins5]
                simp [List.append_assoc]
              · show TargetsOK _ (s5.labels "while_end")
                intro t ht
                simp [jumpTargetsList_append, jumpTargetsList, jumpTargets] at ht
                by_cases hd : t ∈ jumpTargetsList Dt
                · rcases tgt5 t hd with hl | hw
                  · left
                    simp [labelNames_append, labelNames]
                    tauto
                  · exact .inr hw
                · left
                  simp [labelNames_append, labelNames]
                  tauto
              · show NewLabels _ (s3.labels "while_end") (s5.labels "while_end")
                refine new5'.mono_list ?_
                intro x hx
                simp [labelNames_append, labelNames]
                tauto
        | some elseE =>
          simp only [visit] at h
          rcases hT : newLabel rootLoc s "then" with ⟨lT, s1⟩
          rw [hT] at h
          simp only [] at h
          split at h
          · cases h
          · rename_i varCond st1 s2 heqc
            rcases hEl : newLabel rootLoc s2 "else" with ⟨lEl, s3⟩
            rw [hEl] at h
            rcases hI : newLabel rootLoc s3 "if_end" with ⟨lI, s4⟩
            rw [hI] at h
            rcases hv : newVar { s4 with
                ins := s4.ins ++ [Instruction.condJump loc varCond lT lEl] }
                (if ty = BoolT then BoolT else if ty = IntT then IntT else UnitT)
              with ⟨cv, s6⟩
            rw [hv] at h
            split at h
            · cases h
            · rename_i thenVar0 st2 s8 heqt
              simp only [] at h
              split at h
              · cases h
              · rename_i elseVar0 st3 s10 heqe
                simp only [Option.some.injEq, Prod.mk.injEq] at h
                obtain ⟨_, _, hs'⟩ := h
                subst hs'
                have gT : GPost s s1 := by
                  have := GPost.of_newLabel rootLoc s "then" hpre
                    (by decide) (by decide) (by decide)
                  rwa [hT] at this
                have hp2 := ihV _ _ _ cond varCond st1 s2 heqc gT.1
                have gEl : GPost s2 s3 := by
                  have := GPost.of_newLabel rootLoc s2 "else" hp2.1
                    (by decide) (by decide) (by decide)
                  rwa [hEl] at this
                have gI : GPost s3 s4 := by
                  have := GPost.of_newLabel rootLoc s3 "if_end" gEl.1
                    (by decide) (by decide) (by decide)
                  rwa [hI] at this
                have e6i : s6.ins = s4.ins ++ [Instruction.condJump loc varCond lT lEl] := by
                  have := newVar_ins { s4 with
                      ins := s4.ins ++ [Instruction.condJump loc varCond lT lEl] }
                    (if ty = BoolT then BoolT else if ty = IntT then IntT else UnitT)
                  rw [hv] at this
                  exact this
                have e6l : s6.labels = s4.labels := by
                  have := newVar_labels { s4 with
                      ins := s4.ins ++ [Instruction.condJump loc varCond lT lEl] }
                    (if ty = BoolT then BoolT else if ty = IntT then IntT else UnitT)
                  rw [hv] at this
                  exact this
                have e6d : s6.loopDepth = s4.loopDepth := by
                  have := newVar_loopDepth { s4 with
                      ins := s4.ins ++ [Instruction.condJump loc varCond lT lEl] }
                    (if ty = BoolT then BoolT else if ty = IntT then IntT else UnitT)
                  rw [hv] at this
                  exact this
                have hpre7 : GPre { s6 with ins := s6.ins ++ [Instruction.labelIns lT] } := by
                  refine ⟨?_, ?_, ?_⟩ <;>
                    simp only [] <;> rw [e6l]
                  · exact gI.1.1
                  · exact gI.1.2.1
                  · rw [e6d]
                    exact gI.1.2.2
                have hp8 := ihV _ _ _ thenC thenVar0 st2 s8 heqt hpre7
                obtain ⟨pr8, dep8, mono8, Dt, hins8, tgt8, new8⟩ := hp8
                have hpre9 : GPre { s8 with ins := s8.ins ++
                    [Instruction.copy loc
                      (if (thenVar0.name == "unit") = true then IRVar.mk "Unit" else thenVar0) cv,
                     Instruction.jump loc lI, Instruction.labelIns lEl] } :=
                  pr8
                have hp10 := ihV _ _ _ elseE elseVar0 st3 s10 heqe hpre9
                obtain ⟨pr10, dep10, mono10, De, hins10, tgt10, new10⟩ := hp10
                have dep8' : s8.loopDepth = s6.loopDepth := dep8
                have mono8' : s6.labels "while_end" ≤ s8.labels "while_end" := mono8
                have dep10' : s10.loopDepth = s8.loopDepth := dep10
                have mono10' : s8.labels "while_end" ≤ s10.labels "while_end" := mono10
                have new8' : NewLabels Dt (s6.labels "while_end") (s8.labels "while_end") := new8
                have new10' : NewLabels De (s8.labels "while_end") (s10.labels "while_end") := new10
                refine gT.trans (hp2.trans (gEl.trans (gI.trans (⟨⟨pr10.1, pr10.2.1, pr10.2.2⟩,
                  ?_, ?_,
                  [Instruction.condJump loc varCond lT lEl, Instruction.labelIns lT] ++ Dt ++
                    [Instruction.copy loc
                      (if (thenVar0.name == "unit") = true then IRVar.mk "Unit" else thenVar0) cv,
                     Instruction.jump loc lI, Instruction.labelIns lEl] ++ De ++
                    [Instruction.copy loc
                      (if (elseVar0.name == "unit") = true then IRVar.mk "Unit" else elseVar0) cv,
                     Instruction.labelIns lI], ?_, ?_, ?_⟩ :
                  GPost s4 { s10 with ins := s10.ins ++
                    [Instruction.copy loc
                      (if (elseVar0.name == "unit") = true then IRVar.mk "Unit" else elseVar0) cv,
                     Instruction.labelIns lI] }))))
                · show s10.loopDepth = s4.loopDepth
                  rw [dep10', dep8', e6d]
                · show s4.labels "while_end" ≤ s10.labels "while_end"
                  rw [← e6l]
                  exact le_trans mono8' mono10'
                · show s10.ins ++ _ = s4.ins ++ _
                  rw [hins10, hins8, e6i]
                  simp [List.append_assoc]
                · show TargetsOK _ (s10.labels "while_end")
                  intro t ht
                  simp [jumpTargetsList_append, jumpTargetsList, jumpTargets] at ht
                  by_cases hd1 : t ∈ jumpTargetsList Dt
                  · rcases tgt8 t hd1 with hl | hw
                    · left
                      simp [labelNames_append, labelNames]
                      tauto
                    · exact .inr (hw.widen mono10')
                  · by_cases hd2 : t ∈ jumpTargetsList De
                    · rcases tgt10 t hd2 with hl | hw
                      · left
                        simp [labelNames_append, labelNames]
                        tauto
                      · exact .inr hw
                    · left
                      simp [labelNames_append, labelNames]
                      tauto
                · show NewLabels _ (s4.labels "while_end") (s10.labels "while_end")
                  intro k hk1 hk2
                  rw [← e6l] at hk1
                  by_cases hk : k ≤ s8.labels "while_end"
                  · have := new8' k hk1 hk
                    constructor
                    · have := this.1
                      simp only [labelNames_append, List.mem_append]
                      tauto
                    · have := this.2
                      simp only [labelNames_append, List.mem_append]
                      tauto
                  · have := new10' k (by omega) hk2
                    constructor
                    · have := this.1
                      simp only [labelNames_append, List.mem_append]
                      tauto
                    · have := this.2
                      simp only [labelNames_append, List.mem_append]
                      tauto
    · intro rootLoc st s es vs st' s' h hpre
      cases es with
      | nil =>
        simp only [visitList, Option.some.injEq, Prod.mk.injEq] at h
        obtain ⟨_, _, hs'⟩ := h
        subst hs'
        exact GPost.of_same hpre rfl rfl rfl
      | cons e rest =>
        simp only [visitList] at h
        cases h1 : visit rootLoc fuel st s e with
        | none => rw [h1] at h; cases h
        | some r1 =>
          obtain ⟨v1, st1, s1⟩ := r1
          rw [h1] at h
          simp only [] at h
          cases h2 : visitList rootLoc fuel st1 s1 rest with
          | none => rw [h2] at h; cases h
          | some r2 =>
            obtain ⟨vs2, st2, s2⟩ := r2
            rw [h2] at h
            simp only [Option.some.injEq, Prod.mk.injEq] at h
            obtain ⟨_, _, hs'⟩ := h
            subst hs'
            have hp1 := ihV rootLoc st s e v1 st1 s1 h1 hpre
            exact hp1.trans (ihL rootLoc st1 s1 rest vs2 st2 s2 h2 hp1.1)

/-- Membership in the flattened jump-target list follows from membership
in one instruction's targets. -/
theorem mem_jumpTargetsList_of_mem {l : List Instruction} {i : Instruction}
    (hi : i ∈ l) {t : String} (ht : t ∈ jumpTargets i) : t ∈ jumpTargetsList l := by
  induction l with
  | nil => cases hi
  | cons j rest ih =>
    rcases List.mem_cons.mp hi with rfl | hi'
    · exact List.mem_append.mpr (.inl ht)
    · exact List.mem_append.mpr (.inr (ih hi'))

/-- Every instruction list produced by `generate_ir_body` from a
target-free initial list is closed under jump targets. -/
theorem generate_ir_body_closed (fuel : Nat) (rootTypes : List (IRVar × CType))
    (rootExpr : Expr) (insInit : List Instruction) (isFunction : Bool)
    (out : List Instruction)
    (hgen : generate_ir_body fuel rootTypes rootExpr insInit isFunction = some out)
    (hinit : jumpTargetsList insInit = []) : JumpTargetsClosed out := by
  unfold generate_ir_body at hgen
  simp only [] at hgen
  rcases hL : newLabel rootExpr.locOf
      { ins := insInit, varTypes := vtSet rootTypes varUnit UnitT,
        labels := fun _ => 0, loopDepth := 0, counter := 1 } "start" with ⟨lS, s1⟩
  rw [hL] at hgen
  simp only [] at hgen
  split at hgen
  · cases hgen
  · rename_i varFinal stx s3 heq
    have hpre1 : GPre { s1 with ins := s1.ins ++ [Instruction.labelIns lS] } := by
      have o1 := newLabel_labels_other rootExpr.locOf
        { ins := insInit, varTypes := vtSet rootTypes varUnit UnitT,
          labels := fun _ => 0, loopDepth := 0, counter := 1 } "start" "while_start" (by decide)
      have o2 := newLabel_labels_other rootExpr.locOf
        { ins := insInit, varTypes := vtSet rootTypes varUnit UnitT,
          labels := fun _ => 0, loopDepth := 0, counter := 1 } "start" "while_body" (by decide)
      have o3 := newLabel_labels_other rootExpr.locOf
        { ins := insInit, varTypes := vtSet rootTypes varUnit UnitT,
          labels := fun _ => 0, loopDepth := 0, counter := 1 } "start" "while_end" (by decide)
      have d1 := newLabel_loopDepth rootExpr.locOf
        { ins := insInit, varTypes := vtSet rootTypes varUnit UnitT,
          labels := fun _ => 0, loopDepth := 0, counter := 1 } "start"
      rw [hL] at o1 o2 o3 d1
      exact ⟨by rw [o1, o3], by rw [o2, o3], by rw [o3, d1]⟩
    have hp := (visit_gpost fuel).1 _ _ _ _ _ _ _ heq hpre1
    obtain ⟨pr3, dep3, mono3, Δ, hins3, tgt3, new3⟩ := hp
    have hzero : s1.labels "while_end" = 0 := by
      have o3 := newLabel_labels_other rootExpr.locOf
        { ins := insInit, varTypes := vtSet rootTypes varUnit UnitT,
          labels := fun _ => 0, loopDepth := 0, counter := 1 } "start" "while_end"
        (by decide)
      rw [hL] at o3
      exact o3
    have new3' : NewLabels Δ 0 (s3.labels "while_end") := by
      have : NewLabels Δ (s1.labels "while_end") (s3.labels "while_end") := new3
      rwa [hzero] at this
    have hcover : ∀ t, WTarget (s3.labels "while_end") t → t ∈ labelNames Δ := by
      rintro t ⟨k, hk1, hk2, hk3⟩
      rcases hk3 with rfl | rfl
      · exact (new3' k (by omega) hk2).1
      · exact (new3' k (by omega) hk2).2
    have hsins : s3.ins = (s1.ins ++ [Instruction.labelIns lS]) ++ Δ := hins3
    have hs1i : s1.ins = insInit := by
      have := newLabel_ins rootExpr.locOf
        { ins := insInit, varTypes := vtSet rootTypes varUnit UnitT,
          labels := fun _ => 0, loopDepth := 0, counter := 1 } "start"
      rw [hL] at this
      exact this
    have hclosed3 : JumpTargetsClosed s3.ins := by
      intro t ht
      rw [hsins, hs1i] at ht ⊢
      rw [jumpTargetsList_append, jumpTargetsList_append, hinit] at ht
      simp only [jumpTargetsList, jumpTargets, List.append_nil,
        List.nil_append] at ht
      have hmem : t ∈ labelNames Δ := by
        rcases tgt3 t ht with hl | hw
        · exact hl
        · exact hcover t hw
      rw [labelNames_append, labelNames_append]
      exact List.mem_append.mpr (.inr hmem)
    -- the trailing instructions of either branch add no jumps and keep labels
    have tail_closed : ∀ (extra : List Instruction),
        jumpTargetsList extra = [] → JumpTargetsClosed (s3.ins ++ extra) := by
      intro extra hextra t ht
      rw [jumpTargetsList_append, hextra, List.append_nil] at ht
      rw [labelNames_append]
      exact List.mem_append.mpr (.inl (hclosed3 t ht))
    split at hgen
    · split at hgen
      · injection hgen with hout
        subst hout
        exact hclosed3
      · injection hgen with hout
        subst hout
        exact tail_closed _ rfl
    · split at hgen
      · cases hgen
      · split at hgen
        · split at hgen
          · cases hgen
          · injection hgen with hout
            subst hout
            exact tail_closed _ rfl
        · split at hgen
          · split at hgen
            · cases hgen
            · injection hgen with hout
              subst hout
              exact tail_closed _ rfl
          · injection hgen with hout
            subst hout
            exact tail_closed _ rfl

theorem mem_dictSetIns {m : List (String × List Instruction)} {n : String}
    {l : List Instruction} {pr : String × List Instruction}
    (h : pr ∈ dictSetIns m n l) : pr ∈ m ∨ pr = (n, l) := by
  induction m with
  | nil =>
    simp [dictSetIns] at h
    exact .inr h
  | cons kv rest ih =>
    obtain ⟨k, v⟩ := kv
    simp only [dictSetIns] at h
    by_cases hk : (k == n) = true
    · rw [if_pos hk] at h
      rcases List.mem_cons.mp h with rfl | h'
      · exact .inr rfl
      · exact .inl (List.mem_cons.mpr (.inr h'))
    · rw [if_neg hk] at h
      rcases List.mem_cons.mp h with rfl | h'
      · exact .inl (List.mem_cons.mpr (.inl rfl))
      · rcases ih h' with hm | he
        · exact .inl (List.mem_cons.mpr (.inr hm))
        · exact .inr he

theorem generate_ir_module_closed (fuel : Nat) (rootTypes : List (IRVar × CType)) :
    ∀ (body : List (Sum FuncDef Expr)) (acc out : List (String × List Instruction)),
    generate_ir_module fuel rootTypes body acc = some out →
    (∀ pr ∈ acc, JumpTargetsClosed pr.2) →
    ∀ pr ∈ out, JumpTargetsClosed pr.2 := by
  intro body
  induction body with
  | nil =>
    intro acc out hgen hacc
    simp only [generate_ir_module, Option.some.injEq] at hgen
    subst hgen
    exact hacc
  | cons node rest ih =>
    intro acc out hgen hacc
    cases node with
    | inl fd =>
      simp only [generate_ir_module] at hgen
      split at hgen
      · cases hgen
      · rename_i l hbody
        refine ih _ _ hgen ?_
        intro pr hpr
        rcases mem_dictSetIns hpr with hm | he
        · exact hacc pr hm
        · subst he
          exact generate_ir_body_closed fuel _ fd.body _ true l hbody rfl
    | inr e =>
      simp only [generate_ir_module] at hgen
      split at hgen
      · cases hgen
      · rename_i l hbody
        refine ih _ _ hgen ?_
        intro pr hpr
        rcases mem_dictSetIns hpr with hm | he
        · exact hacc pr hm
        · subst he
          exact generate_ir_body_closed fuel _ e _ false l hbody rfl

/-! ### The claims -/

set_option maxHeartbeats 4000000 in
/-- C1: the parser does not accept function definitions at all: on the token
sequence of `fun f() \x7b\x7d` it fails (there is no `Module` result), because
no parsing rule consumes a `fun` keyword. -/
theorem c1_fun_defs_rejected :
    parse_code "fun f() \x7b\x7d" "no file" =
      .error "Location(file='no file', line=1, column=5): could not parse the whole expression" := rfl

/-- C2: the lexer has no dedicated keyword kinds for `break`, `continue`,
`fun` and `return`: all four tokenize with kind `identifier`. -/
theorem c2_keywords_lex_as_identifiers :
    tokenize "break continue fun return" "no file" =
      .ok [{ type := "identifier", text := "break",
             location := { file := "no file", line := 1, column := 1 } },
           { type := "identifier", text := "continue",
             location := { file := "no file", line := 1, column := 7 } },
           { type := "identifier", text := "fun",
             location := { file := "no file", line := 1, column := 16 } },
           { type := "identifier", text := "return",
             location := { file := "no file", line := 1, column := 20 } }] := rfl

/-- C4: on two sibling loops with a `break` in the second, the generated
`main` IR jumps to `while_end` (the first loop's end label, at index 8)
from inside the second loop (the jump at index 13), while the innermost
enclosing loop's end label is `while_end2` (index 15): the break does not
target the innermost enclosing loop. -/
theorem c4_sibling_loops_break_targets_outer :
    generate_ir 100 [] (Sum.inr siblingLoopsExpr) = some [("main", siblingLoopsIns)] ∧
    siblingLoopsIns[13]? = some (Instruction.jump noLoc ⟨noLoc, "while_end"⟩) ∧
    siblingLoopsIns[15]? = some (Instruction.labelIns ⟨noLoc, "while_end2"⟩) ∧
    "while_end" ≠ "while_end2" :=
  ⟨rfl, rfl, rfl, by decide⟩

/-- C5: in every per-function instruction list produced by the IR
generator, every label referenced by a `jump` or `condJump` occurs as a
`Label` instruction in that same list. -/
theorem c5_jump_targets_exist (fuel : Nat) (rootTypes : List (IRVar × CType))
    (rootNode : Sum ModuleAst Expr) (out : List (String × List Instruction))
    (hgen : generate_ir fuel rootTypes rootNode = some out) :
    ∀ pr ∈ out, ∀ i ∈ pr.2, ∀ t ∈ jumpTargets i, t ∈ labelNames pr.2 := by
  have hcl : ∀ pr ∈ out, JumpTargetsClosed pr.2 := by
    cases rootNode with
    | inl m =>
      simp only [generate_ir] at hgen
      exact generate_ir_module_closed fuel rootTypes m.body [] out hgen
        (by intro p hp; cases hp)
    | inr e =>
      simp only [generate_ir] at hgen
      split at hgen
      · cases hgen
      · rename_i l hbody
        injection hgen with hout
        subst hout
        intro pr hpr
        rw [List.mem_singleton] at hpr
        subst hpr
        exact generate_ir_body_closed fuel rootTypes e _ false l hbody rfl
  intro pr hpr i hi t ht
  exact hcl pr hpr t (mem_jumpTargetsList_of_mem hi ht)

theorem c5_jump_targets_exist_witness :
    "while_end" ∈ labelNames whileBreakIns :=
  c5_jump_targets_exist 100 [] (Sum.inr whileBreakExpr) [("main", whileBreakIns)] rfl
    ("main", whileBreakIns) (List.mem_singleton.mpr rfl)
    (Instruction.jump noLoc ⟨noLoc, "while_end"⟩) (by decide)
    "while_end" (by decide)

/-- C3 counterexample: an `if` with no `else` whose then-branch has type
`Int` type-checks with result type `Int`, not `Unit`. -/
theorem c3_counterexample :
    typecheck 10 (Expr.ifExpr (Expr.literal (LitValue.boolV true) noLoc UnitT)
      (Expr.literal (LitValue.intV 1) noLoc UnitT) none noLoc UnitT) =
      .ok (IntT, [[], root_table]) ∧ IntT ≠ UnitT := ⟨rfl, by decide⟩

/-- C3 (amended): for an `ifExpr` whose condition checks to `Bool` and whose
then-branch checks to `t2`: with no `else` branch the result type is `t2`
itself (not `Unit`); with an `else` branch of type `t3`, the result is `t2`
when `t3` is `Unit` (no agreement check), the common type when `t2 = t3`,
and a `TypeError` otherwise. -/
theorem c3_if_without_else_gets_then_type (frv : Option CType) (fuel : Nat)
    (c th : Expr) (loc : Location) (ty : CType) (tb tb1 tb2 : TChain) (t2 : CType)
    (hc : getType frv fuel (some c) tb = .ok (BoolT, tb1))
    (hth : getType frv fuel (some th) tb1 = .ok (t2, tb2)) :
    getType frv (fuel + 1) (some (Expr.ifExpr c th none loc ty)) tb = .ok (t2, tb2) ∧
    ∀ e3 t3 tb3, getType frv fuel (some e3) tb2 = .ok (t3, tb3) →
      getType frv (fuel + 1) (some (Expr.ifExpr c th (some e3) loc ty)) tb =
        (if t3 = UnitT then .ok (t2, tb3)
         else if t2 = t3 then .ok (t3, tb3)
         else .error CheckError.typeError) := by
  cases fuel with
  | zero => cases hc
  | succ n =>
    constructor
    · rw [getType.eq_def]
      simp only []
      rw [hc]
      simp only []
      rw [if_neg (by simp)]
      rw [hth]
      simp only [getType]
      simp
    · intro e3 t3 tb3 h3
      rw [getType.eq_def]
      simp only []
      rw [hc]
      simp only []
      rw [if_neg (by simp)]
      rw [hth]
      simp only []
      rw [h3]
      simp only []
      by_cases h1 : t3 = UnitT
      · simp [h1]
      · by_cases h2 : t2 = t3
        · simp [h1, h2]
        · simp [h1, h2]

theorem c3_if_without_else_gets_then_type_witness :
    getType none 2 (some (Expr.ifExpr (Expr.literal (LitValue.boolV true) noLoc UnitT)
      (Expr.literal (LitValue.intV 1) noLoc UnitT) none noLoc UnitT)) [[]] =
      .ok (IntT, [[]]) :=
  (c3_if_without_else_gets_then_type none 1
    (Expr.literal (LitValue.boolV true) noLoc UnitT)
    (Expr.literal (LitValue.intV 1) noLoc UnitT)
    noLoc UnitT [[]] [[]] [[]] IntT rfl rfl).1

/-- C6 counterexample: the assignment `1 = 2`, whose left side is an integer
literal and not an identifier, is accepted by the type checker with type
`Int` instead of being rejected. -/
theorem c6_counterexample :
    typecheck 10 (Expr.binaryOp (Expr.literal (LitValue.intV 1) noLoc UnitT) "="
      (Expr.literal (LitValue.intV 2) noLoc UnitT) noLoc UnitT) =
      .ok (IntT, [[], root_table]) := rfl

/-- C6 (amended): the type checker never inspects the shape of the left
operand of `=`: for any expressions `l` and `r` whose types agree the
assignment checks with the right operand's type, and for disagreeing
(scalar) types it raises `TypeError` -- the identifier restriction is not
enforced at check time. -/
theorem c6_assignment_lhs_unchecked (frv : Option CType) (fuel : Nat) (l r : Expr)
    (loc : Location) (ty : CType) (tb tb1 tb2 : TChain) (t1 t2 : CType)
    (hl : getType frv fuel (some l) tb = .ok (t1, tb1))
    (hr : getType frv fuel (some r) tb1 = .ok (t2, tb2))
    (hb : t1.isBase = true) :
    getType frv (fuel + 1) (some (Expr.binaryOp l "=" r loc ty)) tb =
      (if t1 = t2 then .ok (t2, tb2) else .error CheckError.typeError) := by
  cases fuel with
  | zero => cases hl
  | succ n =>
    rw [getType.eq_def]
    simp only []
    rw [hl]
    simp only []
    rw [hr]
    simp only []
    by_cases h12 : t1 = t2
    · simp [h12]
    · simp [h12]

theorem c6_assignment_lhs_unchecked_witness :
    getType none 2 (some (Expr.binaryOp (Expr.literal (LitValue.intV 1) noLoc UnitT)
      "=" (Expr.literal (LitValue.intV 2) noLoc UnitT) noLoc UnitT)) [[]] =
      .ok (IntT, [[]]) := by
  have h := c6_assignment_lhs_unchecked none 1
    (Expr.literal (LitValue.intV 1) noLoc UnitT)
    (Expr.literal (LitValue.intV 2) noLoc UnitT) noLoc UnitT [[]] [[]] [[]]
    IntT IntT rfl rfl rfl
  rw [h]
  rfl

/-- Any error of the tokenizer loop is a stuck-character message built from
a character of the source, with no location in it. -/
theorem tokenizeLoop_error_shape (src : List Char) (file : String) :
    ∀ fuel p acc msg, tokenizeLoop src file fuel p acc = .error msg →
    ∃ i, ∃ hi : i < src.length,
      msg = "Unrecognized character: " ++ (src.get ⟨i, hi⟩).toString := by
  intro fuel
  induction fuel with
  | zero =>
    intro p acc msg h
    cases h
  | succ n ih =>
    intro p acc msg h
    rw [tokenizeLoop.eq_def] at h
    simp only [] at h
    split at h
    · rename_i hlt
      rcases hE : extractAll src file (skipAll src p) acc with ⟨p2, acc2⟩
      rw [hE] at h
      simp only [] at h
      split at h
      · injection h with hmsg
        exact ⟨p.i, hlt, hmsg.symm⟩
      · exact ih p2 acc2 msg h
    · cases h

/-- C7 counterexample: on the unrecognized character `@` the lexer error
message carries the character but no location: it does not contain the
file name, nor any line or column digit. -/
theorem c7_counterexample :
    tokenize "@" "no file" = .error "Unrecognized character: @" ∧
    ¬ List.IsInfix "no file".data "Unrecognized character: @".data ∧
    ("Unrecognized character: @".data.all fun ch => !ch.isDigit) = true :=
  ⟨rfl, by decide, rfl⟩

/-- C7 (amended): whenever the lexer fails, its `SyntaxError` message is
exactly `Unrecognized character: ` followed by the offending source
character -- the location (file, line, column) is not part of the message. -/
theorem c7_error_is_stuck_character (src file msg : String)
    (h : tokenize src file = .error msg) :
    ∃ i, ∃ hi : i < src.data.length,
      msg = "Unrecognized character: " ++ (src.data.get ⟨i, hi⟩).toString :=
  tokenizeLoop_error_shape src.data file (src.length + 1)
    { i := 0, line := 1, column := 0 } [] msg h

theorem c7_error_is_stuck_character_witness :
    ∃ i, ∃ hi : i < ("@" : String).data.length,
      "Unrecognized character: @" =
        "Unrecognized character: " ++ (("@" : String).data.get ⟨i, hi⟩).toString :=
  c7_error_is_stuck_character "@" "nofile" "Unrecognized character: @" rfl

set_option maxHeartbeats 4000000 in
/-- C8 counterexample: inside a block, the adjacent expressions
`if true then 1` and `2` parse without any error even though the first does
not end in a closing brace: `\x7b if true then 1 2 \x7d` is accepted. -/
theorem c8_counterexample :
    parse_code "\x7b if true then 1 2 \x7d" "no file" =
      .ok (Expr.blockExpr
        [Expr.ifExpr
           (Expr.literal (LitValue.boolV true) { file := "no file", line := 1, column := 6 } UnitT)
           (Expr.literal (LitValue.intV 1) { file := "no file", line := 1, column := 16 } UnitT)
           none { file := "no file", line := 1, column := 3 } UnitT,
         Expr.literal (LitValue.intV 2) { file := "no file", line := 1, column := 18 } UnitT]
        { file := "no file", line := 1, column := 1 } UnitT) := rfl

/-- C8 (amended): after a statement's expression, when the next token is
not `;`, the parser raises the missing-semicolon error exactly when the
parsed expression is a literal or identifier and the next token is an
integer literal, a boolean literal, an identifier or an opening brace;
any other adjacent expression (an `if`, a `while`, a call, a block, ...)
is accepted with no separator. -/
theorem c8_missing_semicolon_rule (tokens : List Token) (fuel pos : Nat)
    (stmts : List Expr) (e : Expr) (pos1 : Nat)
    (hp : parse_expression tokens fuel pos = .ok (e, pos1))
    (hsemi : (peekTok tokens pos1).text ≠ ";") :
    parse_statement tokens (fuel + 1) pos stmts =
      (if e.isLitOrIdent = true ∧ ((peekTok tokens pos1).type = "int_literal" ∨
          (peekTok tokens pos1).type = "bool_literal" ∨
          (peekTok tokens pos1).type = "identifier" ∨
          (peekTok tokens pos1).text = "\x7b")
       then .error (locRepr (peekTok tokens pos1).location ++ ": expected ';'")
       else .ok (stmts ++ [e], pos1)) := by
  have hsb : ((peekTok tokens pos1).text == ";") = false := by
    simpa using hsemi
  rw [parse_statement.eq_def]
  simp only []
  rw [hp]
  simp only [hsb, Bool.false_eq_true, if_false]
  simp only [Bool.and_eq_true, Bool.or_eq_true, beq_iff_eq]
  simp only [or_assoc]

theorem c8_missing_semicolon_rule_witness :
    parse_statement
      [{ type := "int_literal", text := "1",
         location := { file := "f", line := 1, column := 1 } },
       { type := "int_literal", text := "2",
         location := { file := "f", line := 1, column := 3 } }] 21 0 [] =
      .error "Location(file='f', line=1, column=3): expected ';'" := by
  have h := c8_missing_semicolon_rule
    [{ type := "int_literal", text := "1",
       location := { file := "f", line := 1, column := 1 } },
     { type := "int_literal", text := "2",
       location := { file := "f", line := 1, column := 3 } }] 20 0 []
    (Expr.literal (LitValue.intV 1) { file := "f", line := 1, column := 1 } UnitT) 1
    rfl (by decide)
  rw [h]
  rfl

/-- C9: `LoadIntConst(v, d)` emits a single `movq` into the variable's slot
exactly for 32-bit-signed `v`, and `movabsq` through `%rax` otherwise. -/
theorem c9_load_int_const (lv : Locals) (func : String) (loc : Location)
    (v : Int) (d : IRVar) (slot : String)
    (h : lv.getRef d = some slot) :
    (-(2 ^ 31 : Int) ≤ v ∧ v < 2 ^ 31 →
      instructionLines lv func (Instruction.loadIntConst loc v d) =
        some ["    movq $" ++ toString v ++ ", " ++ slot]) ∧
    (¬ (-(2 ^ 31 : Int) ≤ v ∧ v < 2 ^ 31) →
      instructionLines lv func (Instruction.loadIntConst loc v d) =
        some ["    movabsq $" ++ toString v ++ ", %rax",
              "    movq %rax, " ++ slot]) := by
  constructor
  · intro hr
    simp only [instructionLines, h, Option.map_some']
    rw [if_pos hr]
  · intro hr
    simp only [instructionLines, h, Option.map_some']
    rw [if_neg hr]

theorem c9_load_int_const_witness :
    instructionLines (mkLocals [⟨"x"⟩]) "main" (Instruction.loadIntConst noLoc 5 ⟨"x"⟩) =
      some ["    movq $5, -8(%rbp)"] ∧
    instructionLines (mkLocals [⟨"x"⟩]) "main"
        (Instruction.loadIntConst noLoc 4294967296 ⟨"x"⟩) =
      some ["    movabsq $4294967296, %rax", "    movq %rax, -8(%rbp)"] :=
  ⟨(c9_load_int_const (mkLocals [⟨"x"⟩]) "main" noLoc 5 ⟨"x"⟩ "-8(%rbp)" rfl).1
     (by decide),
   (c9_load_int_const (mkLocals [⟨"x"⟩]) "main" noLoc 4294967296 ⟨"x"⟩ "-8(%rbp)" rfl).2
     (by decide)⟩

/-- Pointwise agreement on the common prefix makes the zip-based check of
the `FuncExpression` case succeed, whatever the lengths are. -/
theorem paramsMatch_of_pointwise :
    ∀ (ps ts : List CType),
    (∀ i, i < ps.length → i < ts.length → ps.get? i = ts.get? i) →
    paramsMatch ps ts = true
  | [], _, _ => rfl
  | _ :: _, [], _ => rfl
  | p :: ps, a :: ts, h => by
    have h0 := h 0 (Nat.succ_pos _) (Nat.succ_pos _)
    simp only [List.get?] at h0
    injection h0 with h0
    simp only [paramsMatch, h0, if_pos rfl]
    exact paramsMatch_of_pointwise ps ts (fun i h1 h2 =>
      h (i + 1) (Nat.succ_lt_succ h1) (Nat.succ_lt_succ h2))

/-- C10: a call type-checks with the callee's declared return type whenever
the argument types agree with the parameter types pairwise on the common
prefix; the argument count is never compared with the parameter count. -/
theorem c10_no_arity_check (frv : Option CType) (fuel : Nat) (name : String)
    (idLoc loc : Location) (args : List Expr) (ty : CType) (tb tb1 : TChain)
    (fname : String) (ps : List CType) (ret : CType) (argTypes : List CType)
    (hlook : chainLookupT tb name = some (CType.fn fname ps ret))
    (hargs : getTypeList frv fuel args tb = .ok (argTypes, tb1))
    (hmatch : ∀ i, i < ps.length → i < argTypes.length →
      ps.get? i = argTypes.get? i) :
    getType frv (fuel + 1) (some (Expr.funcExpr name idLoc args loc ty)) tb =
      .ok (ret, tb1) := by
  rw [getType.eq_def]
  simp only []
  rw [hlook]
  simp only []
  rw [hargs]
  simp only []
  rw [if_pos (paramsMatch_of_pointwise ps argTypes hmatch)]

theorem c10_no_arity_check_witness :
    getType none 6 (some (Expr.funcExpr "print_int" noLoc
      [Expr.literal (LitValue.intV 1) noLoc UnitT,
       Expr.literal (LitValue.intV 2) noLoc UnitT] noLoc UnitT)) [[], root_table] =
      .ok (UnitT, [[], root_table]) ∧
    getType none 6 (some (Expr.funcExpr "print_int" noLoc [] noLoc UnitT))
      [[], root_table] = .ok (UnitT, [[], root_table]) :=
  ⟨c10_no_arity_check none 5 "print_int" noLoc noLoc
     [Expr.literal (LitValue.intV 1) noLoc UnitT,
      Expr.literal (LitValue.intV 2) noLoc UnitT] UnitT [[], root_table]
     [[], root_table] "function" [IntT] UnitT [IntT, IntT] rfl rfl
     (by
       intro i h1 h2
       have h0 : i = 0 := by
         simp only [List.length_cons, List.length_nil] at h1
         omega
       subst h0
       rfl),
   c10_no_arity_check none 5 "print_int" noLoc noLoc [] UnitT [[], root_table]
     [[], root_table] "function" [IntT] UnitT [] rfl rfl
     (by
       intro i h1 h2
       simp only [List.length_nil] at h2
       exact absurd h2 (Nat.not_lt_zero i))⟩

end Compilers
